import Mathlib

/-!
Shallow embedding of the `gettercheck` static-analysis tool
(repository `saiskee/gettercheck`).

The embedding follows the Go sources:
  * `gettercheck/errcheck.go`        — violation records, `Result`, sorting and
    deduplication (`byName.Less`, `Result.Unique`, `Result.Append`,
    `Checker.CheckPackage`, `Checker.shouldSkipFile`);
  * `gettercheck/gettercheck_visitor.go` — the traversal engine
    (`visitor.Visit`, `UnaryVisitor.Visit`, `visitor.addErrorAtPosition`,
    `readfile`, `FindMethod`);
  * the command-line driver (`checkPaths`) from the unnamed main package file.

Go machine integers that appear (line/column numbers, offsets) are
non-negative in every reachable state, so they are modelled as `Nat`.
Go's in-place mutation of `*ast.Ident.Name` is modelled by a rename table
keyed by the identifier's node id (ids play the role of pointers), so the
syntax tree itself stays immutable and the "tree after the check" is the
original tree with the final rename table applied.
-/

namespace Gettercheck

/-- The `token.Position`: file name, byte offset, line and column (1-based).
Go's struct equality compares all four fields. -/
structure Position where
  filename : String
  offset : Nat
  line : Nat
  column : Nat
deriving DecidableEq, Repr

/-- The `token.Position.String()` for a valid position: `file:line:column`
(the offset is never printed). -/
def posString (p : Position) : String :=
  p.filename ++ ":" ++ toString p.line ++ ":" ++ toString p.column

/-- Does the character list `l` start with the pattern `pat`? -/
def charsStartWith : List Char → List Char → Bool
  | [], _ => true
  | _ :: _, [] => false
  | p :: ps, c :: cs => p == c && charsStartWith ps cs

/-- Does the character list `l` end with the pattern `pat`? -/
def charsEndWith (pat l : List Char) : Bool :=
  charsStartWith pat.reverse l.reverse

/-- Does some suffix of `l` start with `pat`? -/
def charsContain (pat : List Char) : List Char → Bool
  | [] => charsStartWith pat []
  | c :: cs => charsStartWith pat (c :: cs) || charsContain pat cs

/-- The `strings.Contains s pat`. -/
def strContainsSub (s pat : String) : Bool :=
  charsContain pat.data s.data

/-- The `UnusedGetterError` (errcheck.go): one recorded violation. -/
structure UnusedGetterError where
  Pos : Position
  GetterPos : Position
  Line : String
  FuncName : String
deriving DecidableEq, Repr

/-- The `Result` (errcheck.go): the violations found in a package. -/
structure Result where
  UnusedGetterError : List UnusedGetterError
deriving DecidableEq, Repr

/-- Lexicographic strict order on character lists (comparing code
points), modelling Go's bytewise `<` on strings. -/
def charsLt : List Char → List Char → Bool
  | [], [] => false
  | [], _ :: _ => true
  | _ :: _, [] => false
  | a :: as, b :: bs =>
      decide (a.toNat < b.toNat) || (decide (a.toNat = b.toNat) && charsLt as bs)

/-- Go's `<` on strings: lexicographic comparison. -/
def strLt (a b : String) : Bool := charsLt a.data b.data

/-- The `byName.Less` (errcheck.go lines 53-69): strict comparison by
`(file, line, column, source-line text)`. -/
def byNameLess (a b : UnusedGetterError) : Bool :=
  if a.Pos.filename ≠ b.Pos.filename then strLt a.Pos.filename b.Pos.filename
  else if a.Pos.line ≠ b.Pos.line then decide (a.Pos.line < b.Pos.line)
  else if a.Pos.column ≠ b.Pos.column then decide (a.Pos.column < b.Pos.column)
  else strLt a.Line b.Line

/-- The sort key `(file, line, column, source-line text)` that `byName.Less`
compares lexicographically. -/
def errKey (e : UnusedGetterError) : String × Nat × Nat × String :=
  (e.Pos.filename, e.Pos.line, e.Pos.column, e.Line)

/-- Insert an element into a list sorted by `byNameLess`, before the first
element it does not strictly follow (a stable insertion). -/
def insertByLess (x : UnusedGetterError) : List UnusedGetterError → List UnusedGetterError
  | [] => [x]
  | y :: ys => if byNameLess y x then y :: insertByLess x ys else x :: y :: ys

/-- A stable insertion sort with the comparison `byName.Less`.  This is a
model of the SPECIFICATION of `sort.Sort` (some permutation ordered by
`byName.Less`), used for the order-insensitive facts; it is NOT the
algorithm the Go runtime executes — `sort.Sort` is unstable and its
go1.16 implementation is ported instruction for instruction as `sortGo`
below, which is what the idempotence claim is settled against. -/
def sortByLess : List UnusedGetterError → List UnusedGetterError
  | [] => []
  | x :: xs => insertByLess x (sortByLess xs)

/-- The compaction loop of `Result.Unique`: an element is kept when it
differs (full struct equality) from the element just before it in the
sorted slice. `prev` is `result[i-1]`. -/
def compactAux (prev : UnusedGetterError) :
    List UnusedGetterError → List UnusedGetterError
  | [] => []
  | y :: ys => if y = prev then compactAux y ys else y :: compactAux y ys

/-- Compaction of consecutive exact duplicates (`Result.Unique`, loop at
errcheck.go lines 93-97; the first element is always kept). -/
def compact : List UnusedGetterError → List UnusedGetterError
  | [] => []
  | x :: xs => x :: compactAux x xs

/-- The `Result.Unique` (errcheck.go lines 88-99): copy, sort by `byName.Less`,
then compact consecutive exact duplicates. -/
def Result.Unique (r : Result) : Result :=
  { UnusedGetterError := compact (sortByLess r.UnusedGetterError) }

/-- The `Result.Append` (errcheck.go lines 80-82): concatenation, no dedup. -/
def Result.Append (r other : Result) : Result :=
  { UnusedGetterError := r.UnusedGetterError ++ other.UnusedGetterError }

/-! ### The go1.16 `sort.Sort` algorithm, ported instruction for
instruction (the repo's go.mod says `go 1.16`; `sort.Sort` kept this
implementation from go1.9 up to go1.18).  The slice is a `List`, indexed
reads use a default element for out-of-range indices (never reached in
the in-range executions considered), and every Go loop becomes a
recursion on an explicit counter that decreases once per iteration; each
counter starts at a bound that exceeds the loop's possible iteration
count, so the port computes exactly what the Go loops compute. -/

/-- Fallback element for out-of-range index reads. -/
def dummyErr : UnusedGetterError := ⟨⟨"", 0, 0, 0⟩, ⟨"", 0, 0, 0⟩, "", ""⟩

/-- The `data[i]` read of the `byName` slice. -/
def lget (l : List UnusedGetterError) (i : Nat) : UnusedGetterError :=
  l.getD i dummyErr

/-- The `data.Swap(i, j)` of the `byName` slice. -/
def lswap (l : List UnusedGetterError) (i j : Nat) : List UnusedGetterError :=
  (l.set i (lget l j)).set j (lget l i)

/-- The `data.Less(i, j)` of the `byName` slice. -/
def lLess (l : List UnusedGetterError) (i j : Nat) : Bool :=
  byNameLess (lget l i) (lget l j)

/-- The inner loop of go1.16 `insertionSort`:
`for j := i; j > a && data.Less(j, j-1); j--  { data.Swap(j, j-1) }`. -/
def insInner (a : Nat) : Nat → List UnusedGetterError → List UnusedGetterError
  | 0, l => l
  | j + 1, l =>
      if a < j + 1 && lLess l (j + 1) j then insInner a j (lswap l (j + 1) j) else l

/-- The outer loop of go1.16 `insertionSort`: `for i := a+1; i < b; i++`. -/
def insOuter (a b : Nat) : Nat → Nat → List UnusedGetterError → List UnusedGetterError
  | 0, _, l => l
  | fuel + 1, i, l => if i < b then insOuter a b fuel (i + 1) (insInner a i l) else l

/-- go1.16 `insertionSort(data, a, b)`. -/
def insertionSortGo (l : List UnusedGetterError) (a b : Nat) : List UnusedGetterError :=
  insOuter a b (b - a) (a + 1) l

/-- The ShellSort pass with gap 6 at the end of go1.16 `quickSort`:
`for i := a+6; i < b; i++ { if data.Less(i, i-6) { data.Swap(i, i-6) } }`. -/
def shellLoop (b : Nat) : Nat → Nat → List UnusedGetterError → List UnusedGetterError
  | 0, _, l => l
  | fuel + 1, i, l =>
      if i < b then
        shellLoop b fuel (i + 1) (if lLess l i (i - 6) then lswap l i (i - 6) else l)
      else l

/-- The ShellSort pass over `[a, b)`. -/
def shellPass (l : List UnusedGetterError) (a b : Nat) : List UnusedGetterError :=
  shellLoop b (b - a) (a + 6) l

/-- The loop of go1.16 `siftDown` (`root` at least doubles each
iteration, so `hi` iterations are more than enough). -/
def siftDownLoop (hi first : Nat) : Nat → Nat → List UnusedGetterError → List UnusedGetterError
  | 0, _, l => l
  | fuel + 1, root, l =>
      let child := 2 * root + 1
      if child ≥ hi then l
      else
        let child :=
          if child + 1 < hi && lLess l (first + child) (first + child + 1) then child + 1
          else child
        if !(lLess l (first + root) (first + child)) then l
        else siftDownLoop hi first fuel child (lswap l (first + root) (first + child))

/-- go1.16 `siftDown(data, lo, hi, first)`. -/
def siftDown (l : List UnusedGetterError) (lo hi first : Nat) : List UnusedGetterError :=
  siftDownLoop hi first hi lo l

/-- The heap-building loop of go1.16 `heapSort`:
`for i := (hi-1)/2; i >= 0; i--`, as a countdown on `i+1`. -/
def heapBuildLoop (hi first : Nat) : Nat → List UnusedGetterError → List UnusedGetterError
  | 0, l => l
  | i + 1, l => heapBuildLoop hi first i (siftDown l i hi first)

/-- The pop loop of go1.16 `heapSort`: `for i := hi-1; i >= 0; i--`. -/
def heapPopLoop (first : Nat) : Nat → List UnusedGetterError → List UnusedGetterError
  | 0, l => l
  | i + 1, l => heapPopLoop first i (siftDown (lswap l first (first + i)) 0 i first)

/-- go1.16 `heapSort(data, a, b)`. -/
def heapSortGo (l : List UnusedGetterError) (a b : Nat) : List UnusedGetterError :=
  let first := a
  let hi := b - a
  let l := heapBuildLoop hi first ((hi - 1) / 2 + 1) l
  heapPopLoop first hi l

/-- go1.16 `medianOfThree(data, m1, m0, m2)`. -/
def medianOfThree (l : List UnusedGetterError) (m1 m0 m2 : Nat) : List UnusedGetterError :=
  let l := if lLess l m1 m0 then lswap l m1 m0 else l
  if lLess l m2 m1 then
    let l := lswap l m2 m1
    if lLess l m1 m0 then lswap l m1 m0 else l
  else l

/-- `for ; a < c && data.Less(a, pivot); a++` of go1.16 `doPivot`. -/
def dpLoopA (pivot c : Nat) (l : List UnusedGetterError) : Nat → Nat → Nat
  | 0, a => a
  | fuel + 1, a => if a < c && lLess l a pivot then dpLoopA pivot c l fuel (a + 1) else a

/-- `for ; b < c && !data.Less(pivot, b); b++` of go1.16 `doPivot`. -/
def dpAdvB (pivot c : Nat) (l : List UnusedGetterError) : Nat → Nat → Nat
  | 0, b => b
  | fuel + 1, b => if b < c && !(lLess l pivot b) then dpAdvB pivot c l fuel (b + 1) else b

/-- `for ; b < c && data.Less(pivot, c-1); c--` of go1.16 `doPivot`. -/
def dpRetrC (pivot b : Nat) (l : List UnusedGetterError) : Nat → Nat → Nat
  | 0, c => c
  | fuel + 1, c => if b < c && lLess l pivot (c - 1) then dpRetrC pivot b l fuel (c - 1) else c

/-- The main partition loop of go1.16 `doPivot` (each iteration closes
the `b`/`c` gap by two, so `hi` outer iterations are enough). -/
def dpLoop (pivot hi : Nat) : Nat → Nat → Nat → List UnusedGetterError →
    List UnusedGetterError × Nat × Nat
  | 0, b, c, l => (l, b, c)
  | fuel + 1, b, c, l =>
      let b := dpAdvB pivot c l hi b
      let c := dpRetrC pivot b l hi c
      if b ≥ c then (l, b, c)
      else dpLoop pivot hi fuel (b + 1) (c - 1) (lswap l b (c - 1))

/-- `for ; a < b && !data.Less(b-1, pivot); b--` of the duplicate
protection block of go1.16 `doPivot`. -/
def dpProtB (a pivot : Nat) (l : List UnusedGetterError) : Nat → Nat → Nat
  | 0, b => b
  | fuel + 1, b =>
      if a < b && !(lLess l (b - 1) pivot) then dpProtB a pivot l fuel (b - 1) else b

/-- `for ; a < b && data.Less(a, pivot); a++` of the duplicate protection
block of go1.16 `doPivot`. -/
def dpProtA (pivot b : Nat) (l : List UnusedGetterError) : Nat → Nat → Nat
  | 0, a => a
  | fuel + 1, a => if a < b && lLess l a pivot then dpProtA pivot b l fuel (a + 1) else a

/-- The duplicate-protection loop of go1.16 `doPivot`. -/
def dpProtLoop (pivot hi : Nat) : Nat → Nat → Nat → List UnusedGetterError →
    List UnusedGetterError × Nat × Nat
  | 0, a, b, l => (l, a, b)
  | fuel + 1, a, b, l =>
      let b := dpProtB a pivot l hi b
      let a := dpProtA pivot b l hi a
      if a ≥ b then (l, a, b)
      else dpProtLoop pivot hi fuel (a + 1) (b - 1) (lswap l a (b - 1))

/-- go1.16 `doPivot(data, lo, hi)`, returning the mutated slice and
`(midlo, midhi)`.  `lo+hi` cannot overflow `Nat`, so the `uint` trick of
the original is plain division here. -/
def doPivotGo (l : List UnusedGetterError) (lo hi : Nat) :
    List UnusedGetterError × Nat × Nat :=
  let m := (lo + hi) / 2
  let l :=
    if hi - lo > 40 then
      let s := (hi - lo) / 8
      let l := medianOfThree l lo (lo + s) (lo + 2 * s)
      let l := medianOfThree l m (m - s) (m + s)
      medianOfThree l (hi - 1) (hi - 1 - s) (hi - 1 - 2 * s)
    else l
  let l := medianOfThree l lo m (hi - 1)
  let pivot := lo
  let a := dpLoopA pivot (hi - 1) l hi (lo + 1)
  let r := dpLoop pivot hi hi a (hi - 1) l
  let l := r.1
  let b := r.2.1
  let c := r.2.2
  let protect := hi - c < 5
  let r2 :=
    if !protect && decide (hi - c < (hi - lo) / 4) then
      let dups := 0
      let r3 :=
        if !(lLess l pivot (hi - 1)) then (lswap l c (hi - 1), c + 1, dups + 1)
        else (l, c, dups)
      let l := r3.1
      let c := r3.2.1
      let dups := r3.2.2
      let r4 := if !(lLess l (b - 1) pivot) then (b - 1, dups + 1) else (b, dups)
      let b := r4.1
      let dups := r4.2
      let r5 :=
        if !(lLess l m pivot) then (lswap l m (b - 1), b - 1, dups + 1)
        else (l, b, dups)
      let l := r5.1
      let b := r5.2.1
      let dups := r5.2.2
      (l, b, c, decide (dups > 1))
    else (l, b, c, protect)
  let l := r2.1
  let b := r2.2.1
  let c := r2.2.2.1
  let protect := r2.2.2.2
  let r6 := if protect then dpProtLoop pivot hi hi a b l else (l, a, b)
  let l := r6.1
  let b := r6.2.2
  let l := lswap l pivot (b - 1)
  (l, b - 1, c)

/-- go1.16 `quickSort(data, a, b, maxDepth)`: the `for b-a > 12` loop
decrements `maxDepth` once per iteration (switching to `heapSort` at 0),
so both the loop and the recursive call recurse on the decremented
depth; slices of at most 12 elements get the ShellSort pass with gap 6
followed by `insertionSort`. -/
def quickSortGo : List UnusedGetterError → Nat → Nat → Nat → List UnusedGetterError
  | l, a, b, 0 =>
      if b - a > 12 then heapSortGo l a b
      else if b - a > 1 then insertionSortGo (shellPass l a b) a b
      else l
  | l, a, b, d + 1 =>
      if b - a > 12 then
        let p := doPivotGo l a b
        let mlo := p.2.1
        let mhi := p.2.2
        if mlo - a < b - mhi then
          quickSortGo (quickSortGo p.1 a mlo d) mhi b d
        else
          quickSortGo (quickSortGo p.1 mhi b d) a mlo d
      else if b - a > 1 then insertionSortGo (shellPass l a b) a b
      else l

/-- The loop of go1.16 `maxDepth`: counts the bits of `n` (`n` halvings
are more than enough fuel). -/
def maxDepthLoop : Nat → Nat → Nat
  | 0, _ => 0
  | fuel + 1, i => if i > 0 then 1 + maxDepthLoop fuel (i / 2) else 0

/-- go1.16 `maxDepth(n) = 2 * ceil(lg(n+1))`. -/
def maxDepthGo (n : Nat) : Nat := 2 * maxDepthLoop n n

/-- go1.16 `sort.Sort((byName)(result))`:
`quickSort(data, 0, n, maxDepth(n))`. -/
def sortGo (l : List UnusedGetterError) : List UnusedGetterError :=
  quickSortGo l 0 l.length (maxDepthGo l.length)

/-- `Result.Unique` with `sort.Sort` as the Go runtime actually executes
it (the ported go1.16 algorithm), instead of the stable model: copy,
sort with `sortGo`, then compact consecutive exact duplicates.  This is
the definition the idempotence claim is settled against. -/
def Result.UniqueGo (r : Result) : Result :=
  { UnusedGetterError := compact (sortGo r.UnusedGetterError) }

/-- The `Exclusions` (errcheck.go). -/
structure Exclusions where
  TestFiles : Bool
  GeneratedFiles : Bool
deriving DecidableEq, Repr

/-- The `Checker` (errcheck.go). -/
structure Checker where
  Exclusions : Exclusions
  WriteGetters : Bool
  Mod : String
deriving DecidableEq, Repr

/-- A declared method (`*types.Func`): its name, its number of parameters
(the code never inspects the signature, the model keeps it so that claims
about parameter counts can be stated), and its declaration position. -/
structure Method where
  mname : String
  nparams : Nat
  mpos : Position
deriving DecidableEq, Repr

/-- The fragment of `types.Type` that `FindMethod` inspects: pointers
(`*types.Pointer`), named types with their declared methods
(`*types.Named`), and everything else (basic types, `untyped nil`, ...)
collapsed into `basic` carrying its `String()` rendering. -/
inductive GoType where
  | pointer (elem : GoType)
  | named (tname : String) (methods : List Method)
  | basic (bname : String)
deriving DecidableEq, Repr

/-- The `types.Type.String()` as far as the visitor compares it: `*` prefixes
for pointers, the name for named and basic types. -/
def GoType.str : GoType → String
  | .pointer e => "*" ++ e.str
  | .named n _ => n
  | .basic n => n

/-- The `FindMethod` (gettercheck_visitor.go lines 253-267): recursively strip
pointers; on a named type linearly scan the declared methods for the first
one with the requested name (the signature is not inspected); any other
type yields `none`. -/
def FindMethod (p : GoType) (methodName : String) : Option Method :=
  match p with
  | .pointer elem => FindMethod elem methodName
  | .named _ methods => methods.find? (fun m => m.mname == methodName)
  | .basic _ => none

/-- All pointer levels stripped from a type. -/
def stripPointers : GoType → GoType
  | .pointer e => stripPointers e
  | .named n ms => .named n ms
  | .basic n => .basic n

/-- The accessor lookup as claim C5 words it (one level of dereference
only, and only zero-argument methods are eligible); written from the
claim's text, to be compared against `FindMethod` from the source. -/
def FindAccessorSpec (p : GoType) (methodName : String) : Option Method :=
  let t := match p with
    | .pointer e => e
    | t => t
  match t with
  | .named _ methods => methods.find? (fun m => m.mname == methodName && m.nparams == 0)
  | _ => none

/-- The accessor lookup as the amended claim C5 words it: strip every
pointer level, then scan the named type's methods by name alone. -/
def FindAccessorAmended (t : GoType) (methodName : String) : Option Method :=
  match stripPointers t with
  | .named _ methods => methods.find? (fun m => m.mname == methodName)
  | _ => none

/-- Unary operator tokens: the visitor only distinguishes `token.AND`
(address-of `&`) from everything else. -/
inductive UnOp where
  | and
  | other
deriving DecidableEq, Repr

/-- Binary operator tokens: the visitor only distinguishes `token.EQL`. -/
inductive BinOp where
  | eql
  | other
deriving DecidableEq, Repr

inductive Expr where
  | ident (id : Nat) (name : String)
  | lit (id : Nat) (value : String)
  | sel (id : Nat) (x : Expr) (selIdent : Nat) (selName : String)
  | paren (id : Nat) (x : Expr)
  | unary (id : Nat) (op : UnOp) (x : Expr)
  | binary (id : Nat) (op : BinOp) (x y : Expr)
  | kv (id : Nat) (key : Expr) (value : Expr)
deriving DecidableEq, Repr

inductive Stmt where
  | assign (lhs rhs : List Expr)
  | exprStmt (e : Expr)
  | ifStmt (cond : Expr)
deriving DecidableEq, Repr

/-- The node id of an expression. -/
def nodeId : Expr → Nat
  | .ident i _ => i
  | .lit i _ => i
  | .sel i _ _ _ => i
  | .paren i _ => i
  | .unary i _ _ => i
  | .binary i _ _ _ => i
  | .kv i _ _ => i

/-- The kind of object `types.Info.ObjectOf` resolves an identifier to:
a `*types.Var` (plain data field / variable) or anything else (method,
constant, nil, ...), which the visitor's `default` branch skips. -/
inductive ObjKind where
  | var
  | other
deriving DecidableEq, Repr

/-- The external world of one package check: the resolved type information
(`types.Info`, keyed by node id), declaration and token positions
(`token.FileSet`), and the file system (`readfile`, which yields `[]` when
the file cannot be read). -/
structure Oracle where
  objKind : Nat → ObjKind
  objPos : Nat → Position
  identPos : Nat → Position
  typeOf : Nat → GoType
  files : String → List String

/-- The mutable state of a `visitor`: the rename table (modelling the
in-place `n.Sel.Name = ...` mutations, keyed by ident id), the per-file
line cache `v.lines`, and the accumulated `v.errors`. -/
structure VState where
  renames : List (Nat × String)
  lines : List (String × List String)
  errors : List UnusedGetterError
deriving Repr

/-- The current `Name` of an ident node (after any in-place renames). -/
def nameOf (st : VState) (id : Nat) (orig : String) : String :=
  (st.renames.lookup id).getD orig

/-- The `visitor.addErrorAtPosition` (gettercheck_visitor.go lines 128-149):
look up (and lazily cache) the file's lines, take the line's trimmed text
when the line number is in range and the placeholder `"??"` otherwise,
and append the violation record. -/
def addErrorAtPosition (o : Oracle) (st : VState) (pos : Position)
    (identName : String) (getterPos : Position) : VState :=
  let (lines, st) :=
    match st.lines.lookup pos.filename with
    | some ls => (ls, st)
    | none =>
        let ls := o.files pos.filename
        (ls, { st with lines := (pos.filename, ls) :: st.lines })
  let line := if pos.line - 1 < lines.length then (lines.getD (pos.line - 1) "").trim else "??"
  { st with errors := st.errors ++ [⟨pos, getterPos, line, identName⟩] }

/-- The parent node of the cursor (`c.Parent()`), as far as the visitor's
parent switch distinguishes it (gettercheck_visitor.go lines 175-202):
an `*ast.AssignStmt` (with its `Lhs` list), an `*ast.BinaryExpr` (with its
operator and operands), an `*ast.UnaryExpr` (with its operator), or any
other node — including the synthetic root wrapper of `astutil.Apply`. -/
inductive Parent where
  | assign (lhs : List Expr)
  | binary (op : BinOp) (x y : Expr)
  | unary (op : UnOp)
  | other

/-- The `basicPointerTypes` (gettercheck_visitor.go line 190), verbatim,
including the duplicated `*int`. -/
def basicPointerTypes : List String :=
  ["*string", "*int", "*bool", "*int", "*int32", "*int64",
   "*float32", "*float64", "*uint32", "*uint64"]

/-- The parent switch of the `SelectorExpr` case of `visitor.Visit`
(lines 175-202): `true` means an early `return true` (the selector is
exempt and the oracle query is skipped).
  * assignment parent: exempt when the node is one of the `Lhs`
    entries (Go compares node pointers; ids play that role);
  * binary parent: exempt when the operator is `==`, the right operand
    is an identifier of type `untyped nil`, and the left operand is a
    selector whose field type prints as one of `basicPointerTypes`;
  * unary parent: exempt when the operator is the address-of `&`. -/
def selParentExempt (o : Oracle) (par : Parent) (selfId : Nat) : Bool :=
  match par with
  | .assign lhs => lhs.any (fun i => nodeId i == selfId)
  | .binary op px py =>
      op == BinOp.eql &&
      (match py with
       | .ident yid _ =>
           (o.typeOf yid).str == "untyped nil" &&
           (match px with
            | .sel _ _ xSel _ => basicPointerTypes.contains (o.typeOf xSel).str
            | _ => false)
       | _ => false)
  | .unary op => op == UnOp.and
  | .other => false

/-- The `*ast.SelectorExpr` case of `visitor.Visit` (lines 172-226),
minus the recursion into children: apply the parent exemptions; then
require `ObjectOf(n.Sel)` to be a `*types.Var`; then require the
variable's declaration position to print with `.pb.go:` in it; then look
up the getter `Get<name>` on the receiver's type.  On success the `Sel`
ident is renamed in place to `Get<name>()` and the violation is recorded
(reading the renamed name). -/
def visitSelCase (o : Oracle) (par : Parent) (st : VState)
    (selfId : Nat) (x : Expr) (selIdent : Nat) (selName : String) : VState :=
  if selParentExempt o par selfId then st
  else
    match o.objKind selIdent with
    | .var =>
        let goPos := o.objPos selIdent
        if strContainsSub (posString goPos) ".pb.go:" then
          let getter := "Get" ++ nameOf st selIdent selName
          let typ := o.typeOf (nodeId x)
          match FindMethod typ getter with
          | some method =>
              let st := { st with renames := (selIdent, getter ++ "()") :: st.renames }
              addErrorAtPosition o st (o.identPos selIdent) (getter ++ "()") method.mpos
          | none => st
        else st
    | .other => st

/-- Which visitor an `astutil.Apply` run is using: the main `visitor`
(`.plain`, i.e. `visitor.Visit`) or the auxiliary `UnaryVisitor`
(`.unaryV`, i.e. `UnaryVisitor.Visit`), which never records errors and
never consults the parent. -/
inductive Mode where
  | plain
  | unaryV

/-- The number of nodes of an expression; an upper bound on the depth of
any chain of recursive visits, used as fuel for the traversal. -/
def exprSize : Expr → Nat
  | .ident _ _ => 1
  | .lit _ _ => 1
  | .sel _ x _ _ => exprSize x + 1
  | .paren _ x => exprSize x + 1
  | .unary _ _ x => exprSize x + 1
  | .binary _ _ x y => exprSize x + exprSize y + 1
  | .kv _ k v => exprSize k + exprSize v + 1

/-- The `astutil.Apply` with `visitor.Visit` (`.plain`) or with
`UnaryVisitor.Visit` (`.unaryV`) over one expression, following the Go
control flow node kind by node kind.  The `fuel` argument only bounds
the recursion depth so that the function is structurally recursive:
every recursive call is on a strict sub-expression, so starting the
traversal with `exprSize e` fuel (as `applyV` and `applyUV` do) never
exhausts it.

`.plain` (= `visitor.Visit`, returning `true` everywhere, so children are
always walked afterwards with the current node as parent):
  * `SelectorExpr`: run the selector decision, then walk the receiver
    (its parent is the selector — no special case) and the `Sel` ident;
  * `KeyValueExpr`: first a manual `astutil.Apply(n.Value, v.Visit, nil)`
    (whose root parent is the synthetic wrapper — no special case), then
    the normal walk of the children `Key` and `Value`;
  * `UnaryExpr` with a selector operand: a manual
    `astutil.Apply(x.X, v.Visit, nil)` on the selector's receiver, then
    the normal walk of the child `X` with the unary node as parent;
  * `UnaryExpr` otherwise: a fresh `UnaryVisitor` is applied to `n.X`
    (sharing the syntax tree, hence the rename table), then the normal
    walk of the child `X` with the unary node as parent;
  * every other node kind: no special case, walk the children.

`.unaryV` (= `UnaryVisitor.Visit`; it records nothing):
  * `ParenExpr` with a selector child: a fresh plain `visitor` (with nil
    `lines` and nil `errors`) is applied to the selector's receiver; its
    recorded errors are discarded (in Go this fresh visitor would panic
    writing its nil `lines` map on the first recorded violation; the
    model keeps going, which no claim depends on); then the normal walk
    of the paren's child;
  * `ParenExpr` with a paren child: `UnaryVisitor` is applied to the
    child's own child, then the normal walk of the paren's child;
  * `SelectorExpr`: `UnaryVisitor` is applied to the receiver, then the
    normal walk of the children visits the receiver again;
  * every other node kind: walk the children. -/
def applyE (o : Oracle) : Nat → Mode → Parent → Expr → VState → VState
  | 0, _, _, _, st => st
  | fuel + 1, mode, par, e, st =>
      match mode, e with
      | .plain, .ident _ _ => st
      | .plain, .lit _ _ => st
      | .plain, .sel selfId x selIdent selName =>
          let st := visitSelCase o par st selfId x selIdent selName
          applyE o fuel .plain .other x st
      | .plain, .paren _ x => applyE o fuel .plain .other x st
      | .plain, .binary _ op x y =>
          let st := applyE o fuel .plain (.binary op x y) x st
          applyE o fuel .plain (.binary op x y) y st
      | .plain, .kv _ k v =>
          let st := applyE o fuel .plain .other v st
          let st := applyE o fuel .plain .other k st
          applyE o fuel .plain .other v st
      | .plain, .unary _ op x =>
          let st :=
            match x with
            | .sel _ sx _ _ => applyE o fuel .plain .other sx st
            | y =>
                let stU := applyE o fuel .unaryV .other y ⟨st.renames, [], []⟩
                { st with renames := stU.renames }
          applyE o fuel .plain (.unary op) x st
      | .unaryV, .ident _ _ => st
      | .unaryV, .lit _ _ => st
      | .unaryV, .paren _ x =>
          let st :=
            match x with
            | .sel _ sx _ _ =>
                let stR := applyE o fuel .plain .other sx ⟨st.renames, [], []⟩
                { st with renames := stR.renames }
            | .paren _ ix => applyE o fuel .unaryV .other ix st
            | _ => st
          applyE o fuel .unaryV .other x st
      | .unaryV, .sel _ x _ _ =>
          let st := applyE o fuel .unaryV .other x st
          applyE o fuel .unaryV .other x st
      | .unaryV, .unary _ _ x => applyE o fuel .unaryV .other x st
      | .unaryV, .binary _ _ x y =>
          applyE o fuel .unaryV .other y (applyE o fuel .unaryV .other x st)
      | .unaryV, .kv _ k v =>
          applyE o fuel .unaryV .other v (applyE o fuel .unaryV .other k st)

/-- The `astutil.Apply(root, v.Visit, nil)` with the main `visitor`. -/
def applyV (o : Oracle) (par : Parent) (e : Expr) (st : VState) : VState :=
  applyE o (exprSize e) .plain par e st

/-- The `astutil.Apply(root, uV.Visit, nil)` with a `UnaryVisitor`. -/
def applyUV (o : Oracle) (e : Expr) (st : VState) : VState :=
  applyE o (exprSize e) .unaryV .other e st

/-- Walk a list of sibling expressions, all with the same parent. -/
def applyExprs (o : Oracle) (par : Parent) (es : List Expr) (st : VState) : VState :=
  es.foldl (fun st e => applyV o par e st) st

/-- Walk one statement.  An `AssignStmt`'s children are the `Lhs`
expressions then the `Rhs` expressions, each with the assignment as
parent; other statements pass a parent that matches no special case. -/
def applyStmt (o : Oracle) (st : VState) : Stmt → VState
  | .assign lhs rhs =>
      let st := applyExprs o (.assign lhs) lhs st
      applyExprs o (.assign lhs) rhs st
  | .exprStmt e => applyV o .other e st
  | .ifStmt cond => applyV o .other cond st

/-- The `astutil.Apply(astFile, v.Visit, nil)` over a file's statements. -/
def applyFile (o : Oracle) (stmts : List Stmt) (st : VState) : VState :=
  stmts.foldl (applyStmt o) st

/-- The initial `visitor` state built in `CheckPackage`. -/
def initV : VState := ⟨[], [], []⟩

/-- Apply the accumulated in-place renames to an expression: every ident
node whose id is in the table shows the renamed `Name`. -/
def renameExpr (rn : List (Nat × String)) : Expr → Expr
  | .ident id name => .ident id ((rn.lookup id).getD name)
  | .lit id v => .lit id v
  | .sel id x selIdent selName =>
      .sel id (renameExpr rn x) selIdent ((rn.lookup selIdent).getD selName)
  | .paren id x => .paren id (renameExpr rn x)
  | .unary id op x => .unary id op (renameExpr rn x)
  | .binary id op x y => .binary id op (renameExpr rn x) (renameExpr rn y)
  | .kv id k v => .kv id (renameExpr rn k) (renameExpr rn v)

/-- Apply the accumulated renames to a statement. -/
def renameStmt (rn : List (Nat × String)) : Stmt → Stmt
  | .assign lhs rhs => .assign (lhs.map (renameExpr rn)) (rhs.map (renameExpr rn))
  | .exprStmt e => .exprStmt (renameExpr rn e)
  | .ifStmt c => .ifStmt (renameExpr rn c)

/-- The `\s` of the generated-code regular expression. -/
def isSpaceChar (c : Char) : Bool :=
  c == ' ' || c == '\t' || c == '\n' || c == '\r' || c == Char.ofNat 11 || c == Char.ofNat 12

/-- The `generatedCodeRegexp.MatchString` (errcheck.go line 143): does the
comment text match `^//\s+Code generated.*DO NOT EDIT\.$`?  The `.*`
does not cross a newline (and `//`-comment texts contain none). -/
def generatedCodeMatch (s : String) : Bool :=
  match s.data with
  | '/' :: '/' :: rest =>
      let sp := rest.takeWhile isSpaceChar
      let rest2 := rest.drop sp.length
      decide (0 < sp.length) &&
      charsStartWith "Code generated".data rest2 &&
      charsEndWith "DO NOT EDIT.".data rest2 &&
      decide (26 ≤ rest2.length) &&
      ((rest2.drop 14).take (rest2.length - 26)).all (fun c => c != '\n')
  | _ => false

/-- One `*ast.File` of a package: its file name (what
`fset.Position(astFile.Pos()).Filename` reports), its comment texts, and
its statements. -/
structure GoFile where
  fname : String
  comments : List String
  stmts : List Stmt
deriving DecidableEq, Repr

/-- The `Checker.shouldSkipFile` (errcheck.go lines 146-161). -/
def shouldSkipFile (c : Checker) (f : GoFile) : Bool :=
  c.Exclusions.GeneratedFiles && f.comments.any generatedCodeMatch

/-- A loaded `*packages.Package`: its `ID`, its loader-reported `Errors`
(just their messages), its `Syntax` list of parsed files, and its
resolved type information (`Types`/`TypesInfo`/`Fset`), bundled as the
oracle. -/
structure Package where
  pid : String
  perrors : List String
  astFiles : List GoFile
  info : Oracle

/-- What `Checker.CheckPackage` produces: the returned `Result`, the
in-place renames applied to the shared syntax trees, and the files
written back to disk (name and serialized tree) — non-empty only when
`WriteGetters` is set. -/
structure CheckOutput where
  res : Result
  renames : List (Nat × String)
  written : List (String × List Stmt)

/-- The per-file body of `Checker.CheckPackage`'s loop: skip the file if
`shouldSkipFile` says so; otherwise run the visitor over it and, when
`WriteGetters` is set, serialize the file's tree (as mutated so far) and
write it back to its file. -/
def checkFileStep (c : Checker) (o : Oracle)
    (acc : VState × List (String × List Stmt)) (f : GoFile) :
    VState × List (String × List Stmt) :=
  let (st, w) := acc
  if shouldSkipFile c f then (st, w)
  else
    let st := applyFile o f.stmts st
    let w := if c.WriteGetters then w ++ [(f.fname, f.stmts.map (renameStmt st.renames))] else w
    (st, w)

/-- The `Checker.CheckPackage` (errcheck.go lines 167-200): one `visitor` is
run over every non-skipped file of the package. -/
def CheckPackage (c : Checker) (pkg : Package) : CheckOutput :=
  let r := pkg.astFiles.foldl (checkFileStep c pkg.info) (initV, [])
  ⟨⟨r.1.errors⟩, r.1.renames, r.2⟩

/-- The package's syntax trees after a check: Go mutates the idents in
place, so the trees afterwards are the original trees with the check's
renames applied. -/
def packageTreeAfter (out : CheckOutput) (pkg : Package) : List (List Stmt) :=
  pkg.astFiles.map (fun f => f.stmts.map (renameStmt out.renames))

/-- The enqueue loop of `checkPaths` (main package, lines 119-127): each
loaded package is checked for loader-reported errors before being put on
the work queue; the first package with errors aborts the whole run. -/
def enqueuePackages : List Package → Except String (List Package)
  | [] => .ok []
  | pkg :: rest =>
      if 0 < pkg.perrors.length then
        .error ("errors while loading package " ++ pkg.pid)
      else
        match enqueuePackages rest with
        | .error e => .error e
        | .ok ps => .ok (pkg :: ps)

/-- The `checkPaths` (main package, lines 118-152), after the external
`LoadPackages` call: enqueue all packages (failing fast on
loader-reported errors, before any worker starts), then the worker pool
drains the queue, merging each per-package `Result` into a shared
aggregate under a mutex; modelled as a sequential drain in queue order
(one legal schedule — each package is checked by exactly one worker).
The final aggregate is deduplicated with `Unique`. -/
def checkPaths (c : Checker) (pkgs : List Package) : Except String Result :=
  match enqueuePackages pkgs with
  | .error e => .error e
  | .ok work =>
      let agg := work.foldl (fun (r : Result) pkg => r.Append (CheckPackage c pkg).res) ⟨[]⟩
      .ok agg.Unique

/-- The `a` sorts no later than `b` under `byName.Less`: the comparison
`Less(b, a)` reports false. -/
def keyLe (a b : UnusedGetterError) : Prop := byNameLess b a = false

/-- Two violations sharing the full sort key `(file, line, column, text)`
but differing in the accessor name: `byName.Less` cannot separate them
and the compaction's full-struct equality does not merge them. -/
def cexC4a : UnusedGetterError :=
  ⟨⟨"a.go", 0, 7, 3⟩, ⟨"types.pb.go", 0, 5, 1⟩, "x = a.Name", "GetName()"⟩

/-- Same key as `cexC4a`, different `FuncName`. -/
def cexC4b : UnusedGetterError :=
  ⟨⟨"a.go", 0, 7, 3⟩, ⟨"types.pb.go", 0, 5, 1⟩, "x = a.Name", "GetOther()"⟩

/-- A getter-named method that takes one parameter. -/
def mC5 : Method := ⟨"GetName", 1, ⟨"m.pb.go", 0, 10, 1⟩⟩

/-- A named type behind two levels of pointers. -/
def tyC5 : GoType := .pointer (.pointer (.named "Msg" [mC5]))

/-- A named type behind one pointer whose getter takes one parameter. -/
def tyC5b : GoType := .pointer (.named "Msg" [mC5])

/-- The line list `addErrorAtPosition` consults for a file: the cached
entry if present, otherwise what `readfile` returns (and `readfile`
returns the empty list when the file cannot be opened). -/
def cacheLines (o : Oracle) (st : VState) (fname : String) : List String :=
  match st.lines.lookup fname with
  | some ls => ls
  | none => o.files fname

/-- An oracle whose file system holds no readable files. -/
def oC8 : Oracle :=
  { objKind := fun _ => .other
    objPos := fun _ => ⟨"", 0, 0, 0⟩
    identPos := fun _ => ⟨"", 0, 0, 0⟩
    typeOf := fun _ => .basic ""
    files := fun _ => [] }

/-- A package with one loader-reported error and nothing else. -/
def pkgC9 : Package :=
  { pid := "example.com/broken"
    perrors := ["expected declaration, found ~"]
    astFiles := []
    info := oC8 }

/-- What is true of every violation the traversal records: the flagged
ident resolved to a `*types.Var` whose declaration position prints with
`.pb.go:` in it, `FindMethod` found the getter `Get<fld>` on the
receiver's resolved type, the violation's position is the ident's token
position, its getter position is the method's declaration position, and
its recorded name is the accessor-call form `Get<fld>()` (the ident was
renamed before the record was captured). -/
def RecordedViolationOK (o : Oracle) (err : UnusedGetterError) : Prop :=
  ∃ selIdent fld xid m,
    o.objKind selIdent = ObjKind.var ∧
    strContainsSub (posString (o.objPos selIdent)) ".pb.go:" = true ∧
    FindMethod (o.typeOf xid) ("Get" ++ fld) = some m ∧
    err.Pos = o.identPos selIdent ∧
    err.GetterPos = m.mpos ∧
    err.FuncName = "Get" ++ fld ++ "()"

/-- Between two visitor states, every error of the later one is either an
error of the earlier one or an oracle-confirmed recorded violation. -/
def ErrsOK (o : Oracle) (stA stB : VState) : Prop :=
  ∀ err ∈ stB.errors, err ∈ stA.errors ∨ RecordedViolationOK o err

/-- The `*Basic` protobuf message type with its generated getter, for the
claim C1 scenario. -/
def tyBasicC1 : GoType :=
  .pointer (.named "Basic" [⟨"GetName", 0, ⟨"types.pb.go", 0, 50, 1⟩⟩])

/-- Type information for `a.Name, b.Name = "x", "y"`: idents `a`/`b` have
ids 1/4 (typed `*Basic`), the two `Name` sel idents have ids 2/5 and
resolve to fields declared in `types.pb.go`. -/
def oC1 : Oracle :=
  { objKind := fun id => if id == 2 || id == 5 then .var else .other
    objPos := fun _ => ⟨"types.pb.go", 10, 3, 2⟩
    identPos := fun id => ⟨"main.go", id, 8, id⟩
    typeOf := fun id => if id == 1 || id == 4 then tyBasicC1 else .basic "string"
    files := fun _ => [] }

/-- The `a.Name, b.Name = "x", "y"`. -/
def progC1 : List Stmt :=
  [ .assign
      [ .sel 3 (.ident 1 "a") 2 "Name", .sel 6 (.ident 4 "b") 5 "Name" ]
      [ .lit 7 "x", .lit 8 "y" ] ]

/-- The `Basic` message type with a generated `GetAddress` getter. -/
def tyBasicC6 : GoType :=
  .pointer (.named "Basic" [⟨"GetAddress", 0, ⟨"types.pb.go", 0, 60, 1⟩⟩])

/-- Type information for `if c.Address == nil {}`: ident `c` has id 11
(typed `*Basic`), the `Address` sel ident has id 12 and is typed
`*string`, the `nil` ident has id 14 and is typed `untyped nil`. -/
def oC6 : Oracle :=
  { objKind := fun id => if id == 12 then .var else .other
    objPos := fun _ => ⟨"types.pb.go", 20, 4, 2⟩
    identPos := fun id => ⟨"main.go", id, 10, id⟩
    typeOf := fun id =>
      if id == 11 then tyBasicC6
      else if id == 12 then .pointer (.basic "string")
      else if id == 14 then .basic "untyped nil"
      else .basic "?"
    files := fun _ => [] }

/-- The `if c.Address == nil {}`. -/
def progC6 : List Stmt :=
  [ .ifStmt (.binary 15 .eql (.sel 13 (.ident 11 "c") 12 "Address") (.ident 14 "nil")) ]

/-- The `*Basic` message type for the claim C2 scenario. -/
def tyBasicC2 : GoType :=
  .pointer (.named "Basic" [⟨"GetName", 0, ⟨"types.pb.go", 0, 50, 1⟩⟩])

/-- Type information for `u = a.Name` with `a : *Basic` (ident id 21) and
the `Name` sel ident id 22 declared in `types.pb.go`. -/
def oC2 : Oracle :=
  { objKind := fun id => if id == 22 then .var else .other
    objPos := fun _ => ⟨"types.pb.go", 10, 3, 2⟩
    identPos := fun id => ⟨"main.go", id, 9, id⟩
    typeOf := fun id => if id == 21 then tyBasicC2 else .basic "string"
    files := fun _ => [] }

/-- A one-file package whose single statement reads `a.Name`. -/
def pkgC2 : Package :=
  { pid := "example.com/ok"
    perrors := []
    astFiles := [⟨"main.go", [], [.assign [.ident 20 "u"] [.sel 23 (.ident 21 "a") 22 "Name"]]⟩]
    info := oC2 }

/-- The violation `CheckPackage` records for `pkgC2`. -/
def errC2 : UnusedGetterError :=
  ⟨⟨"main.go", 22, 9, 22⟩, ⟨"types.pb.go", 0, 50, 1⟩, "??", "GetName()"⟩

/-- The `*Basic` message type for the claim C10 scenario. -/
def tyBasicC10 : GoType :=
  .pointer (.named "Basic" [⟨"GetName", 0, ⟨"types.pb.go", 0, 50, 1⟩⟩])

/-- Type information for `u = a.Name` with `a : *Basic` (ident id 31) and
the `Name` sel ident id 32 declared in `types.pb.go`. -/
def oC10 : Oracle :=
  { objKind := fun id => if id == 32 then .var else .other
    objPos := fun _ => ⟨"types.pb.go", 10, 3, 2⟩
    identPos := fun id => ⟨"main.go", id, 11, id⟩
    typeOf := fun id => if id == 31 then tyBasicC10 else .basic "string"
    files := fun _ => [] }

/-- A one-file package whose single statement reads `a.Name`. -/
def pkgC10 : Package :=
  { pid := "example.com/c10"
    perrors := []
    astFiles := [⟨"main.go", [], [.assign [.ident 30 "u"] [.sel 33 (.ident 31 "a") 32 "Name"]]⟩]
    info := oC10 }

/-- A checker with everything off. -/
def cC10 : Checker := ⟨⟨false, false⟩, false, ""⟩

/-- The violation `CheckPackage` records for `pkgC10`. -/
def errC10 : UnusedGetterError :=
  ⟨⟨"main.go", 32, 11, 32⟩, ⟨"types.pb.go", 0, 50, 1⟩, "??", "GetName()"⟩

/-- The `*Basic` message type for the claim C7 scenario. -/
def tyBasicC7 : GoType :=
  .pointer (.named "Basic" [⟨"GetName", 0, ⟨"types.pb.go", 0, 50, 1⟩⟩])

/-- Type information for `u = a.Name` with `a : *Basic` (ident id 41) and
the `Name` sel ident id 42 declared in `types.pb.go`. -/
def oC7 : Oracle :=
  { objKind := fun id => if id == 42 then .var else .other
    objPos := fun _ => ⟨"types.pb.go", 10, 3, 2⟩
    identPos := fun id => ⟨"main.go", id, 12, id⟩
    typeOf := fun id => if id == 41 then tyBasicC7 else .basic "string"
    files := fun _ => [] }

/-- A one-file package whose single statement reads `a.Name`. -/
def pkgC7 : Package :=
  { pid := "example.com/c7"
    perrors := []
    astFiles := [⟨"main.go", [], [.assign [.ident 40 "u"] [.sel 43 (.ident 41 "a") 42 "Name"]]⟩]
    info := oC7 }

/-- A checker with rewriting disabled. -/
def cC7 : Checker := ⟨⟨false, false⟩, false, ""⟩

/-- One level of a lexicographic comparison: compare by `lt` when the
components differ, defer to the rest otherwise (the shape of each level
of `byName.Less`). -/
def lexStep {α : Type} [DecidableEq α] (lt : α → α → Bool) (x y : α) (rest : Bool) : Bool :=
  if x ≠ y then lt x y else rest

/-- The functional effect of the inner insertion loop on the reversed
already-sorted prefix: `y` bubbles leftwards past every element it is
strictly `byNameLess`-below. -/
def insFromRight : List UnusedGetterError → UnusedGetterError → List UnusedGetterError
  | [], y => [y]
  | w :: ws, y => if byNameLess y w then w :: insFromRight ws y else y :: w :: ws

/-- A violation record on line `k` of `f.go`: the sort key is
`("f.go", k, 1, "")`, so records with equal `k` compare equal under
`byName.Less` while staying distinct records through `FuncName`. -/
def mkC3 (k : Nat) (tag : String) : UnusedGetterError :=
  ⟨⟨"f.go", 0, k, 1⟩, ⟨"g.pb.go", 0, 1, 1⟩, "", tag⟩

/-- Thirteen violations, already sorted by the `byName.Less` key, with an
equal-key run of two records (`D`, `I`) on line 4: on 13 elements
go1.16 `sort.Sort` enters the quicksort branch, whose pivot swaps
reorder the equal-key pair. -/
def cexC3 : List UnusedGetterError :=
  [mkC3 0 "B", mkC3 0 "J", mkC3 0 "K", mkC3 1 "M", mkC3 2 "E", mkC3 3 "F",
   mkC3 4 "D", mkC3 4 "I", mkC3 5 "G", mkC3 5 "H", mkC3 6 "A", mkC3 7 "C",
   mkC3 8 "L"]

/-- A two-violation result (an exact duplicate pair) used to exercise the
small-input idempotence of `Result.Unique`. -/
def wC3 : Result := ⟨[mkC3 3 "X", mkC3 3 "X"]⟩

theorem charsLt_asymm : ∀ {x y : List Char},
    charsLt x y = true → charsLt y x = false
  | [], [], h => by simp [charsLt] at h
  | [], _ :: _, _ => by simp [charsLt]
  | _ :: _, [], h => by simp [charsLt] at h
  | a :: as, b :: bs, h => by
      rw [charsLt] at h
      rw [charsLt]
      simp only [Bool.or_eq_true, Bool.and_eq_true, decide_eq_true_eq] at h
      simp only [Bool.or_eq_false_iff, Bool.and_eq_false_iff,
        decide_eq_false_iff_not]
      rcases h with h | ⟨heq, hlt⟩
      · exact ⟨by omega, .inl (by omega)⟩
      · exact ⟨by omega, .inr (charsLt_asymm hlt)⟩

theorem strLt_asymm {a b : String} (h : strLt a b = true) : strLt b a = false :=
  charsLt_asymm h

theorem byNameLess_asymm {a b : UnusedGetterError} (h : byNameLess a b = true) :
    byNameLess b a = false := by
  unfold byNameLess at h ⊢
  by_cases h1 : a.Pos.filename = b.Pos.filename
  · by_cases h2 : a.Pos.line = b.Pos.line
    · by_cases h3 : a.Pos.column = b.Pos.column
      · simp only [h1, h2, h3, ne_eq, not_true_eq_false, if_false, ite_false] at h ⊢
        exact strLt_asymm h
      · simp only [h1, h2, h3, ne_eq, not_true_eq_false, if_false, ite_false,
          Ne.symm h3, not_false_eq_true, if_true, ite_true,
          decide_eq_true_eq, decide_eq_false_iff_not] at h ⊢
        omega
    · simp only [h1, h2, Ne.symm h2, ne_eq, not_true_eq_false, if_false, ite_false,
        not_false_eq_true, if_true, ite_true,
        decide_eq_true_eq, decide_eq_false_iff_not] at h ⊢
      omega
  · simp only [h1, Ne.symm h1, ne_eq, not_false_eq_true, if_true, ite_true] at h ⊢
    exact strLt_asymm h

theorem keyLe_of_not_less {a b : UnusedGetterError} (h : ¬ byNameLess b a = true) :
    keyLe a b := by
  unfold keyLe
  exact Bool.not_eq_true _ ▸ Bool.of_not_eq_true h

theorem chain'_insertByLess {x : UnusedGetterError} {l : List UnusedGetterError}
    (hl : l.Chain' keyLe) : (insertByLess x l).Chain' keyLe := by
  induction l with
  | nil => simp [insertByLess]
  | cons y ys ih =>
      rw [insertByLess]
      by_cases h : byNameLess y x = true
      · rw [if_pos h]
        have hys : ys.Chain' keyLe := hl.tail
        refine List.chain'_cons'.mpr ⟨?_, ih hys⟩
        intro z hz
        cases ys with
        | nil =>
            simp [insertByLess] at hz
            subst hz
            exact byNameLess_asymm h
        | cons w ws =>
            rw [insertByLess] at hz
            by_cases hw : byNameLess w x = true
            · rw [if_pos hw] at hz
              simp at hz
              subst hz
              exact (List.chain'_cons.mp hl).1
            · rw [if_neg hw] at hz
              simp at hz
              subst hz
              exact byNameLess_asymm h
      · rw [if_neg h]
        exact List.chain'_cons.mpr ⟨keyLe_of_not_less h, hl⟩

theorem chain'_sortByLess (l : List UnusedGetterError) :
    (sortByLess l).Chain' keyLe := by
  induction l with
  | nil => simp [sortByLess]
  | cons x xs ih => exact chain'_insertByLess ih

theorem sortByLess_of_chain' {l : List UnusedGetterError}
    (hl : l.Chain' keyLe) : sortByLess l = l := by
  induction l with
  | nil => rfl
  | cons x xs ih =>
      rw [sortByLess, ih hl.tail]
      cases xs with
      | nil => rfl
      | cons y ys =>
          have hxy : keyLe x y := (List.chain'_cons.mp hl).1
          rw [insertByLess, if_neg (by simp [keyLe] at hxy; simp [hxy])]

theorem chain'_compactAux {prev : UnusedGetterError} {l : List UnusedGetterError}
    (h : (prev :: l).Chain' keyLe) :
    (prev :: compactAux prev l).Chain' keyLe := by
  induction l generalizing prev with
  | nil => simp [compactAux]
  | cons y ys ih =>
      have h1 : keyLe prev y := (List.chain'_cons.mp h).1
      have h2 : (y :: ys).Chain' keyLe := (List.chain'_cons.mp h).2
      rw [compactAux]
      by_cases hy : y = prev
      · rw [if_pos hy]
        subst hy
        exact ih h2
      · rw [if_neg hy]
        exact List.chain'_cons.mpr ⟨h1, ih h2⟩

theorem chain'_compact {l : List UnusedGetterError} (h : l.Chain' keyLe) :
    (compact l).Chain' keyLe := by
  cases l with
  | nil => simp [compact]
  | cons x xs => exact chain'_compactAux h

theorem chain'_ne_compactAux (prev : UnusedGetterError) (l : List UnusedGetterError) :
    (prev :: compactAux prev l).Chain' (fun a b => a ≠ b) := by
  induction l generalizing prev with
  | nil => simp [compactAux]
  | cons y ys ih =>
      rw [compactAux]
      by_cases hy : y = prev
      · rw [if_pos hy]
        subst hy
        exact ih y
      · rw [if_neg hy]
        exact List.chain'_cons.mpr ⟨Ne.symm hy, ih y⟩

theorem chain'_ne_compact (l : List UnusedGetterError) :
    (compact l).Chain' (fun a b => a ≠ b) := by
  cases l with
  | nil => simp [compact]
  | cons x xs => exact chain'_ne_compactAux x xs

theorem compactAux_of_chain'_ne {prev : UnusedGetterError} {l : List UnusedGetterError}
    (h : (prev :: l).Chain' (fun a b => a ≠ b)) : compactAux prev l = l := by
  induction l generalizing prev with
  | nil => rfl
  | cons y ys ih =>
      have h1 : prev ≠ y := (List.chain'_cons.mp h).1
      have h2 : (y :: ys).Chain' (fun a b => a ≠ b) := (List.chain'_cons.mp h).2
      rw [compactAux, if_neg (Ne.symm h1), ih h2]

theorem compact_of_chain'_ne {l : List UnusedGetterError}
    (h : l.Chain' (fun a b => a ≠ b)) : compact l = l := by
  cases l with
  | nil => rfl
  | cons x xs => rw [compact, compactAux_of_chain'_ne h]

/-- Claim C4, counterexample: after `Unique`, two distinct violations can
still share an identical `(file, line, column, source-line text)` key —
they merely differ in `FuncName`, which the sort key ignores and the
full-struct compaction distinguishes. -/
theorem claim_C4_counterexample :
    (Result.Unique ⟨[cexC4a, cexC4b]⟩).UnusedGetterError = [cexC4a, cexC4b] ∧
    errKey cexC4a = errKey cexC4b ∧ cexC4a ≠ cexC4b := by
  refine ⟨?_, by decide, by decide⟩
  decide

/-- Claim C4, amended: for every `CheckResult R`, `Unique(R)` is sorted
ascending by the key `(file, line, column, source-line text)` (each
adjacent pair is in `byName.Less` order), and no two consecutive
violations in the result are fully identical records.  Distinct records
sharing the key (differing, e.g., in the accessor name or getter
position) may both remain. -/
theorem claim_C4_sorted_and_adjacent_distinct (r : Result) :
    r.Unique.UnusedGetterError.Chain' keyLe ∧
    r.Unique.UnusedGetterError.Chain' (fun a b => a ≠ b) := by
  unfold Result.Unique
  exact ⟨chain'_compact (chain'_sortByLess _), chain'_ne_compact _⟩

/-- Claim C5, counterexample: `FindMethod` does not behave as the claim
states.  It strips `**Msg` down to `Msg` (the claim's single dereference
would leave `*Msg` and answer `none`), and it returns a method named
`GetName` that takes one argument (the claim restricts the scan to
methods taking no arguments); `FindAccessorSpec` is the claim's wording
as a definition. -/
theorem claim_C5_counterexample :
    FindMethod tyC5 "GetName" = some mC5 ∧
    FindAccessorSpec tyC5 "GetName" = none ∧
    FindMethod tyC5b "GetName" = some mC5 ∧
    FindAccessorSpec tyC5b "GetName" = none ∧
    mC5.nparams ≠ 0 := by
  refine ⟨by decide, by decide, by decide, by decide, by decide⟩

/-- Claim C5, amended: `FindMethod(type, methodName)` strips every level
of reference (not just one), then, if the result is a named aggregate
type, linearly scans its declared methods for the first one with the
requested name regardless of its signature, returning it if found; any
other type yields `none`.  It is a pure function (deterministic, no side
effects), stated here as its equality with the direct strip-then-scan
form. -/
theorem claim_C5_find_method_strips_all_pointers (t : GoType) (name : String) :
    FindMethod t name = FindAccessorAmended t name := by
  induction t with
  | pointer e ih => rw [FindMethod, ih]; rfl
  | named n ms => rfl
  | basic n => rfl

/-- Claim C8: whenever the violation's line number falls outside the
cached line list for its file — including when the file could not be
read and the list is empty — the recorded source-line text is the
placeholder `"??"`, and the record is still appended (recording never
fails). -/
theorem claim_C8_out_of_range_line_is_placeholder
    (o : Oracle) (st : VState) (pos : Position) (nm : String) (gp : Position)
    (h : ¬ pos.line - 1 < (cacheLines o st pos.filename).length) :
    (addErrorAtPosition o st pos nm gp).errors =
      st.errors ++ [⟨pos, gp, "??", nm⟩] := by
  unfold addErrorAtPosition
  unfold cacheLines at h
  cases hlk : st.lines.lookup pos.filename with
  | some ls => rw [hlk] at h; simp [hlk, h]
  | none => rw [hlk] at h; simp [hlk, h]

theorem claim_C8_witness :
    (addErrorAtPosition oC8 initV ⟨"gone.go", 0, 7, 3⟩ "GetName()" ⟨"types.pb.go", 0, 5, 1⟩).errors =
      initV.errors ++ [⟨⟨"gone.go", 0, 7, 3⟩, ⟨"types.pb.go", 0, 5, 1⟩, "??", "GetName()"⟩] :=
  claim_C8_out_of_range_line_is_placeholder oC8 initV ⟨"gone.go", 0, 7, 3⟩
    "GetName()" ⟨"types.pb.go", 0, 5, 1⟩ (by decide)

theorem enqueuePackages_error {pkgs : List Package}
    (h : ∃ p ∈ pkgs, p.perrors ≠ []) :
    ∃ msg, enqueuePackages pkgs = .error msg := by
  induction pkgs with
  | nil => rcases h with ⟨p, hp, _⟩; cases hp
  | cons q rest ih =>
      rw [enqueuePackages]
      by_cases hq : 0 < q.perrors.length
      · exact ⟨_, by rw [if_pos hq]⟩
      · rcases h with ⟨p, hp, hpe⟩
        rcases List.mem_cons.mp hp with rfl | hp
        · cases hpe (List.eq_nil_of_length_eq_zero (Nat.eq_zero_of_not_pos hq))
        · rcases ih ⟨p, hp, hpe⟩ with ⟨msg, hmsg⟩
          exact ⟨msg, by rw [if_neg hq, hmsg]⟩

/-- Claim C9: if any loaded package carries loader-reported errors,
`checkPaths` returns a load-time error: the whole run aborts with no
result — no package is checked and no violations are produced (the
enqueue loop fails before any worker starts). -/
theorem claim_C9_load_errors_abort (c : Checker) (pkgs : List Package)
    (h : ∃ p ∈ pkgs, p.perrors ≠ []) :
    ∃ msg, checkPaths c pkgs = .error msg := by
  rcases enqueuePackages_error h with ⟨msg, hmsg⟩
  exact ⟨msg, by rw [checkPaths, hmsg]⟩

theorem claim_C9_witness :
    ∃ msg, checkPaths ⟨⟨false, false⟩, false, ""⟩ [pkgC9] = .error msg :=
  claim_C9_load_errors_abort ⟨⟨false, false⟩, false, ""⟩ [pkgC9]
    ⟨pkgC9, List.mem_singleton.mpr rfl, by decide⟩

theorem ErrsOK.rfl {o : Oracle} {st : VState} : ErrsOK o st st :=
  fun _ he => .inl he

theorem ErrsOK.comp {o : Oracle} {stA stB stC : VState}
    (h1 : ErrsOK o stA stB) (h2 : ErrsOK o stB stC) : ErrsOK o stA stC :=
  fun e he => (h2 e he).elim (fun hb => h1 e hb) .inr

theorem addErrorAtPosition_errors (o : Oracle) (st : VState) (pos : Position)
    (nm : String) (gp : Position) :
    ∃ line, (addErrorAtPosition o st pos nm gp).errors =
      st.errors ++ [⟨pos, gp, line, nm⟩] := by
  unfold addErrorAtPosition
  cases hlk : st.lines.lookup pos.filename <;> simp [hlk]

theorem visitSelCase_errsOK (o : Oracle) (par : Parent) (st : VState)
    (selfId : Nat) (x : Expr) (selIdent : Nat) (selName : String) :
    ErrsOK o st (visitSelCase o par st selfId x selIdent selName) := by
  unfold visitSelCase
  split
  · exact ErrsOK.rfl
  · split
    · next hvar =>
        dsimp only
        split
        · next hpb =>
            split
            · next m hm =>
                obtain ⟨line, hline⟩ :=
                  addErrorAtPosition_errors o
                    { st with renames := (selIdent, "Get" ++ nameOf st selIdent selName ++ "()") :: st.renames }
                    (o.identPos selIdent)
                    ("Get" ++ nameOf st selIdent selName ++ "()") m.mpos
                intro e he
                rw [hline] at he
                rcases List.mem_append.mp he with he | he
                · exact .inl he
                · right
                  have he' := List.mem_singleton.mp he
                  subst he'
                  exact ⟨selIdent, nameOf st selIdent selName, nodeId x, m,
                    hvar, hpb, hm, Eq.refl _, Eq.refl _, Eq.refl _⟩
            · exact ErrsOK.rfl
        · exact ErrsOK.rfl
    · exact ErrsOK.rfl

theorem applyE_errsOK (o : Oracle) :
    ∀ (fuel : Nat) (mode : Mode) (par : Parent) (e : Expr) (st : VState),
      ErrsOK o st (applyE o fuel mode par e st) := by
  intro fuel
  induction fuel with
  | zero => intro mode par e st; exact ErrsOK.rfl
  | succ fuel ih =>
      intro mode par e st
      cases mode with
      | plain =>
          cases e with
          | ident i n => exact ErrsOK.rfl
          | lit i v => exact ErrsOK.rfl
          | sel selfId x selIdent selName =>
              exact (visitSelCase_errsOK o par st selfId x selIdent selName).comp
                (ih .plain .other x _)
          | paren i x => exact ih .plain .other x st
          | binary i op x y =>
              exact (ih .plain (.binary op x y) x st).comp (ih .plain (.binary op x y) y _)
          | kv i k v =>
              exact ((ih .plain .other v st).comp (ih .plain .other k _)).comp
                (ih .plain .other v _)
          | unary i op x =>
              cases x with
              | sel sid sx si sn =>
                  exact (ih .plain .other sx st).comp (ih .plain (.unary op) _ _)
              | ident j n => exact (ErrsOK.rfl).comp (ih .plain (.unary op) _ _)
              | lit j v => exact (ErrsOK.rfl).comp (ih .plain (.unary op) _ _)
              | paren j px => exact (ErrsOK.rfl).comp (ih .plain (.unary op) _ _)
              | binary j bop bx bz => exact (ErrsOK.rfl).comp (ih .plain (.unary op) _ _)
              | kv j kk kg => exact (ErrsOK.rfl).comp (ih .plain (.unary op) _ _)
              | unary j uop ux => exact (ErrsOK.rfl).comp (ih .plain (.unary op) _ _)
      | unaryV =>
          cases e with
          | ident i n => exact ErrsOK.rfl
          | lit i v => exact ErrsOK.rfl
          | sel i x si sn =>
              exact (ih .unaryV .other x st).comp (ih .unaryV .other x _)
          | paren i x =>
              cases x with
              | sel sid sx si sn => exact (ErrsOK.rfl).comp (ih .unaryV .other _ _)
              | paren j ix =>
                  exact (ih .unaryV .other ix st).comp (ih .unaryV .other _ _)
              | ident j n => exact ih .unaryV .other _ _
              | lit j v => exact ih .unaryV .other _ _
              | binary j bop bx bz => exact ih .unaryV .other _ _
              | kv j kk kg => exact ih .unaryV .other _ _
              | unary j uop ux => exact ih .unaryV .other _ _
          | unary i op x => exact ih .unaryV .other x st
          | binary i op x y =>
              exact (ih .unaryV .other x st).comp (ih .unaryV .other y _)
          | kv i k v =>
              exact (ih .unaryV .other k st).comp (ih .unaryV .other v _)

theorem applyV_errsOK (o : Oracle) (par : Parent) (e : Expr) (st : VState) :
    ErrsOK o st (applyV o par e st) :=
  applyE_errsOK o (exprSize e) .plain par e st

theorem applyExprs_errsOK (o : Oracle) (par : Parent) :
    ∀ (es : List Expr) (st : VState), ErrsOK o st (applyExprs o par es st) := by
  intro es
  induction es with
  | nil => intro st; exact ErrsOK.rfl
  | cons e es ih =>
      intro st
      exact (applyV_errsOK o par e st).comp (ih _)

theorem applyStmt_errsOK (o : Oracle) (s : Stmt) (st : VState) :
    ErrsOK o st (applyStmt o st s) := by
  cases s with
  | assign lhs rhs =>
      exact (applyExprs_errsOK o (.assign lhs) lhs st).comp
        (applyExprs_errsOK o (.assign lhs) rhs _)
  | exprStmt e => exact applyV_errsOK o .other e st
  | ifStmt cond => exact applyV_errsOK o .other cond st

theorem applyFile_errsOK (o : Oracle) :
    ∀ (stmts : List Stmt) (st : VState), ErrsOK o st (applyFile o stmts st) := by
  intro stmts
  induction stmts with
  | nil => intro st; exact ErrsOK.rfl
  | cons s ss ih =>
      intro st
      exact (applyStmt_errsOK o s st).comp (ih _)

theorem checkFileStep_fst (c : Checker) (o : Oracle)
    (acc : VState × List (String × List Stmt)) (f : GoFile) :
    (checkFileStep c o acc f).1 =
      if shouldSkipFile c f then acc.1 else applyFile o f.stmts acc.1 := by
  obtain ⟨st, w⟩ := acc
  by_cases hs : shouldSkipFile c f = true
  · simp [checkFileStep, hs]
  · simp [checkFileStep, hs]

theorem checkFold_errsOK (c : Checker) (o : Oracle) :
    ∀ (files : List GoFile) (acc : VState × List (String × List Stmt)),
      ErrsOK o acc.1 (files.foldl (checkFileStep c o) acc).1 := by
  intro files
  induction files with
  | nil => intro acc; exact ErrsOK.rfl
  | cons f fs ih =>
      intro acc
      have hstep : ErrsOK o acc.1 (checkFileStep c o acc f).1 := by
        rw [checkFileStep_fst]
        split
        · exact ErrsOK.rfl
        · exact applyFile_errsOK o f.stmts acc.1
      exact hstep.comp (ih (checkFileStep c o acc f))

theorem checkPackage_errsOK (c : Checker) (pkg : Package) :
    ∀ err ∈ (CheckPackage c pkg).res.UnusedGetterError,
      RecordedViolationOK pkg.info err := by
  intro err herr
  have h := checkFold_errsOK c pkg.info pkg.astFiles (initV, [])
  rcases h err herr with hin | hok
  · cases hin
  · exact hok

/-- Claim C1: a field access that is itself an assignment target (a
member of its parent assignment's left-hand-side list) or the direct
operand of the address-of operator is never flagged — the selector
decision leaves the visitor state untouched; and checking the source
`a.Name, b.Name = "x", "y"` with qualifying fields yields zero
violations (while the same field access in a non-exempt context is
flagged, so the fields do qualify). -/
theorem claim_C1_lhs_and_addressof_exempt :
    (∀ (o : Oracle) (st : VState) (lhs : List Expr) (selfId : Nat) (x : Expr)
        (selIdent : Nat) (selName : String),
        lhs.any (fun i => nodeId i == selfId) = true →
        visitSelCase o (.assign lhs) st selfId x selIdent selName = st) ∧
    (∀ (o : Oracle) (st : VState) (selfId : Nat) (x : Expr)
        (selIdent : Nat) (selName : String),
        visitSelCase o (.unary .and) st selfId x selIdent selName = st) ∧
    (applyFile oC1 progC1 initV).errors = [] ∧
    (visitSelCase oC1 .other initV 3 (.ident 1 "a") 2 "Name").errors ≠ [] := by
  refine ⟨?_, ?_, by decide, by decide⟩
  · intro o st lhs selfId x selIdent selName h
    simp [visitSelCase, selParentExempt, h]
  · intro o st selfId x selIdent selName
    simp [visitSelCase, selParentExempt]

theorem claim_C1_witness :
    visitSelCase oC1
      (.assign [.sel 3 (.ident 1 "a") 2 "Name", .sel 6 (.ident 4 "b") 5 "Name"])
      initV 3 (.ident 1 "a") 2 "Name" = initV :=
  claim_C1_lhs_and_addressof_exempt.1 oC1 initV
    [.sel 3 (.ident 1 "a") 2 "Name", .sel 6 (.ident 4 "b") 5 "Name"]
    3 (.ident 1 "a") 2 "Name" (by decide)

/-- Claim C6: a field access on the left of an `==` whose right operand
is an identifier typed `untyped nil`, when the field's resolved type
prints as one of the primitive pointer types, is exempt — the selector
decision leaves the state untouched; and checking `if c.Address == nil {}`
with `Address` a primitive-pointer field yields zero violations (while
the same field access in a non-exempt context is flagged). -/
theorem claim_C6_pointer_nil_exempt :
    (∀ (o : Oracle) (st : VState) (selfId : Nat) (x : Expr)
        (selIdent : Nat) (selName : String) (pxid pxSel : Nat) (pxX : Expr)
        (pxName : String) (yid : Nat) (yName : String),
        (o.typeOf yid).str = "untyped nil" →
        basicPointerTypes.contains (o.typeOf pxSel).str = true →
        visitSelCase o (.binary .eql (.sel pxid pxX pxSel pxName) (.ident yid yName))
          st selfId x selIdent selName = st) ∧
    (applyFile oC6 progC6 initV).errors = [] ∧
    (visitSelCase oC6 .other initV 13 (.ident 11 "c") 12 "Address").errors ≠ [] := by
  refine ⟨?_, by decide, by decide⟩
  intro o st selfId x selIdent selName pxid pxSel pxX pxName yid yName h1 h2
  simp [visitSelCase, selParentExempt, h1, h2]
  intro hmem
  exact absurd (by simpa using h2) hmem

theorem claim_C6_witness :
    visitSelCase oC6
      (.binary .eql (.sel 13 (.ident 11 "c") 12 "Address") (.ident 14 "nil"))
      initV 13 (.ident 11 "c") 12 "Address" = initV :=
  claim_C6_pointer_nil_exempt.1 oC6 initV 13 (.ident 11 "c") 12 "Address"
    13 12 (.ident 11 "c") "Address" 14 "nil" (by decide) (by decide)

/-- Claim C2: every violation a package check records comes from a
selector ident resolved to a plain data field (`*types.Var`) whose
declaration position prints with `.pb.go:` in it and for which
`FindMethod` found the getter `Get<fld>` on a receiver's resolved type;
the violation carries that ident's position, the getter's declaration
position, and the accessor-call name.  Fields without the `.pb.go`
provenance are never flagged (no record can exist for them), even if a
getter method exists. -/
theorem claim_C2_flag_requires_pbgo_and_getter (c : Checker) (pkg : Package)
    (err : UnusedGetterError)
    (h : err ∈ (CheckPackage c pkg).res.UnusedGetterError) :
    ∃ selIdent fld xid m,
      pkg.info.objKind selIdent = ObjKind.var ∧
      strContainsSub (posString (pkg.info.objPos selIdent)) ".pb.go:" = true ∧
      FindMethod (pkg.info.typeOf xid) ("Get" ++ fld) = some m ∧
      err.Pos = pkg.info.identPos selIdent ∧
      err.GetterPos = m.mpos ∧
      err.FuncName = "Get" ++ fld ++ "()" := by
  have hrec := checkPackage_errsOK c pkg err h
  unfold RecordedViolationOK at hrec
  exact hrec

theorem claim_C2_witness :
    ∃ selIdent fld xid m,
      pkgC2.info.objKind selIdent = ObjKind.var ∧
      strContainsSub (posString (pkgC2.info.objPos selIdent)) ".pb.go:" = true ∧
      FindMethod (pkgC2.info.typeOf xid) ("Get" ++ fld) = some m ∧
      errC2.Pos = pkgC2.info.identPos selIdent ∧
      errC2.GetterPos = m.mpos ∧
      errC2.FuncName = "Get" ++ fld ++ "()" :=
  claim_C2_flag_requires_pbgo_and_getter ⟨⟨false, false⟩, false, ""⟩ pkgC2 errC2
    (by decide)

/-- Claim C10: every recorded violation's `FuncName` is the accessor name
followed by call parentheses — the string `Get<fld>()` — never a bare
field name; concretely, checking a package that reads field `Name` records
`FuncName = "GetName()"`, and the selector ident was renamed to that
accessor-call form in the tree before the record was captured (the rename
table maps the `Name` ident to `GetName()`). -/
theorem claim_C10_funcname_is_accessor_call :
    (∀ (c : Checker) (pkg : Package) (err : UnusedGetterError),
        err ∈ (CheckPackage c pkg).res.UnusedGetterError →
        ∃ fld, err.FuncName = "Get" ++ fld ++ "()") ∧
    (CheckPackage cC10 pkgC10).res.UnusedGetterError.map (fun e => e.FuncName) = ["GetName()"] ∧
    (CheckPackage cC10 pkgC10).renames = [(32, "GetName()")] := by
  refine ⟨?_, by decide, by decide⟩
  intro c pkg err h
  obtain ⟨selIdent, fld, xid, m, _, _, _, _, _, hfn⟩ := checkPackage_errsOK c pkg err h
  exact ⟨fld, hfn⟩

theorem claim_C10_witness :
    ∃ fld, errC10.FuncName = "Get" ++ fld ++ "()" :=
  claim_C10_funcname_is_accessor_call.1 cC10 pkgC10 errC10 (by decide)

theorem shouldSkipFile_wg (c : Checker) (b : Bool) (f : GoFile) :
    shouldSkipFile { c with WriteGetters := b } f = shouldSkipFile c f := rfl

theorem checkFileStep_cases (c : Checker) (o : Oracle) (st : VState)
    (w : List (String × List Stmt)) (f : GoFile) :
    checkFileStep c o (st, w) f =
      if shouldSkipFile c f then (st, w)
      else (applyFile o f.stmts st,
        if c.WriteGetters then
          w ++ [(f.fname, f.stmts.map (renameStmt (applyFile o f.stmts st).renames))]
        else w) := by
  by_cases hs : shouldSkipFile c f = true <;> simp [checkFileStep, hs]

theorem checkFold_fst_wg (c : Checker) (o : Oracle) :
    ∀ (files : List GoFile) (st : VState) (w₁ w₂ : List (String × List Stmt)),
      (files.foldl (checkFileStep { c with WriteGetters := false } o) (st, w₁)).1 =
      (files.foldl (checkFileStep { c with WriteGetters := true } o) (st, w₂)).1 := by
  intro files
  induction files with
  | nil => intro st w₁ w₂; rfl
  | cons f fs ih =>
      intro st w₁ w₂
      rw [List.foldl_cons, List.foldl_cons, checkFileStep_cases, checkFileStep_cases]
      simp only [shouldSkipFile_wg]
      by_cases hs : shouldSkipFile c f = true
      · rw [if_pos hs, if_pos hs]; exact ih st w₁ w₂
      · rw [if_neg hs, if_neg hs]; exact ih _ _ _

theorem checkFold_snd_false (c : Checker) (o : Oracle) (hc : c.WriteGetters = false) :
    ∀ (files : List GoFile) (st : VState) (w : List (String × List Stmt)),
      (files.foldl (checkFileStep c o) (st, w)).2 = w := by
  intro files
  induction files with
  | nil => intro st w; rfl
  | cons f fs ih =>
      intro st w
      rw [List.foldl_cons, checkFileStep_cases]
      by_cases hs : shouldSkipFile c f = true
      · rw [if_pos hs]; exact ih st w
      · rw [if_neg hs]
        simp only [hc, Bool.false_eq_true, if_false, ite_false]
        exact ih _ w

/-- Claim C7, counterexample: with rewriting disabled (`WriteGetters`
false) the check writes nothing to disk, yet the package's syntax tree
after `CheckPackage` differs from the tree before it — the flagged
selector ident `Name` has been renamed to `GetName()` in the shared
tree, so the core does not merely read the unit. -/
theorem claim_C7_counterexample :
    cC7.WriteGetters = false ∧
    (CheckPackage cC7 pkgC7).written = [] ∧
    packageTreeAfter (CheckPackage cC7 pkgC7) pkgC7 ≠
      pkgC7.astFiles.map (fun f => f.stmts) := by
  refine ⟨rfl, by decide, by decide⟩

/-- Claim C7, amended: when rewriting is disabled, `CheckPackage` writes
nothing back to disk, but the traversal still renames every flagged
selector ident in the unit's shared syntax tree; the visitor state (and
hence the resulting report, the rename table and the tree after the
check) is identical whether or not `WriteGetters` is set — the flag only
controls serializing the mutated tree back to the unit's file. -/
theorem claim_C7_writegetters_only_gates_disk_writes (c : Checker) (pkg : Package) :
    (CheckPackage { c with WriteGetters := false } pkg).written = [] ∧
    (CheckPackage { c with WriteGetters := false } pkg).renames =
      (CheckPackage { c with WriteGetters := true } pkg).renames ∧
    (CheckPackage { c with WriteGetters := false } pkg).res =
      (CheckPackage { c with WriteGetters := true } pkg).res ∧
    packageTreeAfter (CheckPackage { c with WriteGetters := false } pkg) pkg =
      packageTreeAfter (CheckPackage { c with WriteGetters := true } pkg) pkg := by
  have h := checkFold_fst_wg c pkg.info pkg.astFiles initV [] []
  refine ⟨?_, ?_, ?_, ?_⟩
  · exact checkFold_snd_false { c with WriteGetters := false } pkg.info rfl pkg.astFiles initV []
  · exact congrArg VState.renames h
  · exact congrArg (fun st : VState => (⟨st.errors⟩ : Result)) h
  · unfold packageTreeAfter
    rw [show (CheckPackage { c with WriteGetters := false } pkg).renames =
        (CheckPackage { c with WriteGetters := true } pkg).renames from
      congrArg VState.renames h]

theorem charsLt_irrefl : ∀ (x : List Char), charsLt x x = false
  | [] => rfl
  | a :: as => by
      rw [charsLt]
      simp [charsLt_irrefl as]

theorem charsLt_trans : ∀ {x y z : List Char},
    charsLt x y = true → charsLt y z = true → charsLt x z = true
  | [], [], _, h1, _ => by simp [charsLt] at h1
  | [], _ :: _, [], _, h2 => by simp [charsLt] at h2
  | [], _ :: _, _ :: _, _, _ => by simp [charsLt]
  | _ :: _, [], _, h1, _ => by simp [charsLt] at h1
  | _ :: _, _ :: _, [], _, h2 => by simp [charsLt] at h2
  | a :: as, b :: bs, c :: cs, h1, h2 => by
      rw [charsLt] at h1 h2 ⊢
      simp only [Bool.or_eq_true, Bool.and_eq_true, decide_eq_true_eq] at h1 h2 ⊢
      rcases h1 with h1 | ⟨h1e, h1r⟩
      · rcases h2 with h2 | ⟨h2e, h2r⟩
        · exact .inl (by omega)
        · exact .inl (by omega)
      · rcases h2 with h2 | ⟨h2e, h2r⟩
        · exact .inl (by omega)
        · exact .inr ⟨by omega, charsLt_trans h1r h2r⟩

theorem char_toNat_inj {a b : Char} (h : a.toNat = b.toNat) : a = b := by
  have h2 : Char.ofNat a.toNat = Char.ofNat b.toNat := congrArg Char.ofNat h
  rwa [Char.ofNat_toNat, Char.ofNat_toNat] at h2

theorem charsLt_eq_of_both_false : ∀ {x y : List Char},
    charsLt x y = false → charsLt y x = false → x = y
  | [], [], _, _ => rfl
  | [], _ :: _, h1, _ => by simp [charsLt] at h1
  | _ :: _, [], _, h2 => by simp [charsLt] at h2
  | a :: as, b :: bs, h1, h2 => by
      rw [charsLt] at h1 h2
      simp only [Bool.or_eq_false_iff, Bool.and_eq_false_iff,
        decide_eq_false_iff_not] at h1 h2
      have hab : a.toNat = b.toNat := by omega
      rcases h1.2 with h1r | h1r
      · exact absurd hab h1r
      · rcases h2.2 with h2r | h2r
        · exact absurd hab.symm h2r
        · rw [char_toNat_inj hab, charsLt_eq_of_both_false h1r h2r]

theorem strLt_irrefl (s : String) : strLt s s = false := charsLt_irrefl s.data

theorem strLt_trans {x y z : String} (h1 : strLt x y = true) (h2 : strLt y z = true) :
    strLt x z = true := charsLt_trans h1 h2

theorem strLt_eq_of_both_false {x y : String} (h1 : strLt x y = false)
    (h2 : strLt y x = false) : x = y := by
  cases x with
  | mk xd =>
      cases y with
      | mk yd => exact congrArg String.mk (charsLt_eq_of_both_false h1 h2)

theorem byNameLess_eq_lexStep (a b : UnusedGetterError) :
    byNameLess a b =
      lexStep strLt a.Pos.filename b.Pos.filename
        (lexStep (fun u v => decide (u < v)) a.Pos.line b.Pos.line
          (lexStep (fun u v => decide (u < v)) a.Pos.column b.Pos.column
            (strLt a.Line b.Line))) := rfl

theorem lexStep_trans {α : Type} [DecidableEq α] {lt : α → α → Bool}
    (htr : ∀ u v w, lt u v = true → lt v w = true → lt u w = true)
    (hirr : ∀ u, lt u u = false)
    {x y z : α} {r1 r2 r3 : Bool}
    (hr : r1 = true → r2 = true → r3 = true)
    (h1 : lexStep lt x y r1 = true) (h2 : lexStep lt y z r2 = true) :
    lexStep lt x z r3 = true := by
  unfold lexStep at h1 h2 ⊢
  by_cases exy : x = y
  · subst exy
    by_cases exz : x = z
    · subst exz; simp_all
    · simp_all
  · by_cases eyz : y = z
    · subst eyz; simp_all
    · simp only [ne_eq, exy, eyz, not_false_eq_true, if_true, ite_true] at h1 h2
      have hxz : lt x z = true := htr _ _ _ h1 h2
      have hne : x ≠ z := by
        intro e; subst e; rw [hirr] at hxz; exact Bool.false_ne_true hxz
      simp [hne, hxz]

theorem lexStep_both_false {α : Type} [DecidableEq α] {lt : α → α → Bool}
    (hconn : ∀ u v, lt u v = false → lt v u = false → u = v)
    {x y : α} {r1 r2 : Bool}
    (h1 : lexStep lt x y r1 = false) (h2 : lexStep lt y x r2 = false) :
    x = y ∧ r1 = false ∧ r2 = false := by
  unfold lexStep at h1 h2
  by_cases exy : x = y
  · subst exy; simp_all
  · simp only [ne_eq, exy, Ne.symm exy, not_false_eq_true, if_true, ite_true] at h1 h2
    exact absurd (hconn _ _ h1 h2) exy

theorem byNameLess_trans {a b c : UnusedGetterError}
    (h1 : byNameLess a b = true) (h2 : byNameLess b c = true) :
    byNameLess a c = true := by
  rw [byNameLess_eq_lexStep] at h1 h2 ⊢
  refine lexStep_trans ?_ ?_ ?_ h1 h2
  · exact fun u v w hu hv => strLt_trans hu hv
  · exact strLt_irrefl
  · intro g1 g2
    refine lexStep_trans ?_ ?_ ?_ g1 g2
    · intro u v w hu hv; simp at hu hv ⊢; omega
    · intro u; simp
    · intro g3 g4
      refine lexStep_trans ?_ ?_ ?_ g3 g4
      · intro u v w hu hv; simp at hu hv ⊢; omega
      · intro u; simp
      · exact fun g5 g6 => strLt_trans g5 g6

theorem natLtB_conn (u v : Nat) (hu : decide (u < v) = false)
    (hv : decide (v < u) = false) : u = v := by
  simp at hu hv; omega

theorem byNameLess_both_false_key_eq {a b : UnusedGetterError}
    (h1 : byNameLess a b = false) (h2 : byNameLess b a = false) :
    errKey a = errKey b := by
  rw [byNameLess_eq_lexStep] at h1 h2
  obtain ⟨hf, h1, h2⟩ :=
    lexStep_both_false (fun u v hu hv => strLt_eq_of_both_false hu hv) h1 h2
  obtain ⟨hl, h1, h2⟩ := lexStep_both_false natLtB_conn h1 h2
  obtain ⟨hc, h1, h2⟩ := lexStep_both_false natLtB_conn h1 h2
  have ht := strLt_eq_of_both_false h1 h2
  unfold errKey
  rw [hf, hl, hc, ht]

theorem byNameLess_congr_key {a a' b : UnusedGetterError}
    (h : errKey a = errKey a') : byNameLess a b = byNameLess a' b := by
  unfold errKey at h
  simp only [Prod.mk.injEq] at h
  obtain ⟨hf, hl, hc, ht⟩ := h
  unfold byNameLess
  rw [hf, hl, hc, ht]

theorem keyLe_trans : Transitive keyLe := by
  intro a b c h1 h2
  unfold keyLe at h1 h2 ⊢
  cases hv : byNameLess c a with
  | false => rfl
  | true =>
      cases hbc : byNameLess b c with
      | true =>
          have hba := byNameLess_trans hbc hv
          rw [h1] at hba
          exact absurd hba Bool.false_ne_true
      | false =>
          have hk : errKey b = errKey c := byNameLess_both_false_key_eq hbc h2
          have := byNameLess_congr_key hk.symm (b := a)
          rw [hv, h1] at this
          exact this

theorem lswap_length (l : List UnusedGetterError) (i j : Nat) :
    (lswap l i j).length = l.length := by
  simp [lswap]

theorem insInner_length (a : Nat) : ∀ (j : Nat) (l : List UnusedGetterError),
    (insInner a j l).length = l.length
  | 0, _ => rfl
  | j + 1, l => by
      rw [insInner]
      split
      · rw [insInner_length a j, lswap_length]
      · rfl

theorem insOuter_length (a b : Nat) : ∀ (fuel i : Nat) (l : List UnusedGetterError),
    (insOuter a b fuel i l).length = l.length
  | 0, _, _ => rfl
  | fuel + 1, i, l => by
      rw [insOuter]
      split
      · rw [insOuter_length a b fuel, insInner_length]
      · rfl

theorem insertionSortGo_length (l : List UnusedGetterError) (a b : Nat) :
    (insertionSortGo l a b).length = l.length := insOuter_length a b (b - a) (a + 1) l

theorem shellLoop_length (b : Nat) : ∀ (fuel i : Nat) (l : List UnusedGetterError),
    (shellLoop b fuel i l).length = l.length
  | 0, _, _ => rfl
  | fuel + 1, i, l => by
      rw [shellLoop]
      split
      · rw [shellLoop_length b fuel]
        split <;> simp [lswap_length]
      · rfl

theorem shellPass_length (l : List UnusedGetterError) (a b : Nat) :
    (shellPass l a b).length = l.length := shellLoop_length b (b - a) (a + 6) l

theorem compactAux_length_le (prev : UnusedGetterError) : ∀ (l : List UnusedGetterError),
    (compactAux prev l).length ≤ l.length
  | [] => Nat.le_refl 0
  | y :: ys => by
      rw [compactAux]
      split
      · exact Nat.le_trans (compactAux_length_le y ys) (Nat.le_succ _)
      · simpa using compactAux_length_le y ys

theorem compact_length_le : ∀ (l : List UnusedGetterError), (compact l).length ≤ l.length
  | [] => Nat.le_refl 0
  | x :: xs => by simpa [compact] using compactAux_length_le x xs

theorem lget_append_at : ∀ (xs : List UnusedGetterError) (y : UnusedGetterError)
    (zs : List UnusedGetterError), lget (xs ++ y :: zs) xs.length = y
  | [], _, _ => rfl
  | x :: xs, y, zs => by
      simpa [lget, List.getD] using lget_append_at xs y zs

theorem lget_append_at_succ (xs : List UnusedGetterError) (u v : UnusedGetterError)
    (zs : List UnusedGetterError) : lget (xs ++ u :: v :: zs) (xs.length + 1) = v := by
  have h := lget_append_at (xs ++ [u]) v zs
  simpa using h

theorem lswap_adj : ∀ (xs : List UnusedGetterError) (u v : UnusedGetterError)
    (zs : List UnusedGetterError),
    lswap (xs ++ u :: v :: zs) (xs.length + 1) xs.length = xs ++ v :: u :: zs
  | [], u, v, zs => by simp [lswap, lget]
  | x :: xs, u, v, zs => by
      have ih := lswap_adj xs u v zs
      simp only [lswap, lget, List.cons_append, List.length_cons, List.getD_cons_succ,
        List.set_cons_succ] at ih ⊢
      rw [ih]

theorem lLess_adj (xs : List UnusedGetterError) (u v : UnusedGetterError)
    (zs : List UnusedGetterError) :
    lLess (xs ++ u :: v :: zs) (xs.length + 1) xs.length = byNameLess v u := by
  unfold lLess
  rw [lget_append_at_succ, lget_append_at]

theorem insInner_spec (xs : List UnusedGetterError) : ∀ (y : UnusedGetterError)
    (zs : List UnusedGetterError),
    insInner 0 xs.length (xs ++ y :: zs) = (insFromRight xs.reverse y).reverse ++ zs := by
  induction xs using List.reverseRecOn with
  | nil => intro y zs; simp [insInner, insFromRight]
  | append_singleton ms w ih =>
      intro y zs
      have hlen : (ms ++ [w]).length = ms.length + 1 := by simp
      have harr : (ms ++ [w]) ++ y :: zs = ms ++ w :: y :: zs := by simp
      rw [hlen, harr, insInner, lLess_adj]
      by_cases hyw : byNameLess y w = true
      · rw [if_pos (by simp [hyw]), lswap_adj, ih y (w :: zs), List.reverse_append]
        simp [insFromRight, hyw]
      · rw [if_neg (by simp [Bool.of_not_eq_true hyw]), List.reverse_append]
        simp [insFromRight, Bool.of_not_eq_true hyw]

theorem insFromRight_length : ∀ (ws : List UnusedGetterError) (y : UnusedGetterError),
    (insFromRight ws y).length = ws.length + 1
  | [], _ => rfl
  | w :: ws, y => by
      rw [insFromRight]
      split
      · simp [insFromRight_length ws y]
      · simp

theorem insFromRight_head : ∀ (ws : List UnusedGetterError) (y z : UnusedGetterError),
    (insFromRight ws y).head? = some z → z = y ∨ ws.head? = some z
  | [], y, z => by
      intro h
      simp [insFromRight] at h
      exact .inl h.symm
  | w :: ws, y, z => by
      rw [insFromRight]
      split
      · intro h
        simp at h
        exact .inr (by simp [h])
      · intro h
        simp at h
        exact .inl h.symm

theorem insFromRight_chain : ∀ (ws : List UnusedGetterError) (y : UnusedGetterError),
    ws.Chain' (flip keyLe) → (insFromRight ws y).Chain' (flip keyLe)
  | [], y, _ => by simp [insFromRight]
  | w :: ws, y, h => by
      rw [insFromRight]
      rcases List.chain'_cons'.mp h with ⟨hhead, htail⟩
      by_cases hyw : byNameLess y w = true
      · rw [if_pos hyw]
        refine List.chain'_cons'.mpr ⟨?_, insFromRight_chain ws y htail⟩
        intro z hz
        rcases insFromRight_head ws y z hz with hzy | hzw
        · subst hzy
          show keyLe z w
          unfold keyLe
          exact byNameLess_asymm hyw
        · exact hhead z hzw
      · rw [if_neg hyw]
        refine List.chain'_cons.mpr ⟨?_, h⟩
        show keyLe w y
        unfold keyLe
        exact Bool.of_not_eq_true hyw

theorem chain'_snoc_insert (pre : List UnusedGetterError) (y : UnusedGetterError)
    (h : pre.Chain' keyLe) : ((insFromRight pre.reverse y).reverse).Chain' keyLe := by
  rw [List.chain'_reverse]
  refine insFromRight_chain pre.reverse y ?_
  rw [List.chain'_reverse]
  simpa using h

theorem sorted_lget {l : List UnusedGetterError} (hl : l.Chain' keyLe) {j i : Nat}
    (hji : j < i) (hi : i < l.length) : byNameLess (lget l i) (lget l j) = false := by
  letI : IsTrans UnusedGetterError keyLe := ⟨fun a b c hab hbc => keyLe_trans hab hbc⟩
  have hp : l.Pairwise keyLe := List.chain'_iff_pairwise.mp hl
  have hj : j < l.length := Nat.lt_trans hji hi
  have hk : keyLe (l.get ⟨j, hj⟩) (l.get ⟨i, hi⟩) :=
    List.pairwise_iff_getElem.mp hp j i hj hi hji
  unfold keyLe at hk
  unfold lget
  rw [List.getD_eq_getElem _ _ hi, List.getD_eq_getElem _ _ hj]
  exact hk

theorem insOuter_chain (b : Nat) : ∀ (rest pre : List UnusedGetterError) (fuel : Nat),
    pre.Chain' keyLe → rest.length ≤ fuel → b = pre.length + rest.length →
    (insOuter 0 b fuel pre.length (pre ++ rest)).Chain' keyLe
  | [], pre, fuel, hpre, _, hb => by
      cases fuel with
      | zero => simpa using hpre
      | succ f =>
          rw [insOuter, if_neg (by simp at hb; omega)]
          simpa using hpre
  | y :: rest, pre, fuel, hpre, hfuel, hb => by
      cases fuel with
      | zero => exact absurd hfuel (by simp)
      | succ f =>
          rw [insOuter, if_pos (by simp at hb; omega), insInner_spec pre y rest]
          have e1 : (insFromRight pre.reverse y).reverse.length = pre.length + 1 := by
            simp [insFromRight_length]
          rw [show pre.length + 1 = (insFromRight pre.reverse y).reverse.length from e1.symm]
          refine insOuter_chain b rest (insFromRight pre.reverse y).reverse f
            (chain'_snoc_insert pre y hpre) (by simp at hfuel; omega) (by simp at hb; omega)

theorem insertionSortGo_chain (l : List UnusedGetterError) (h : 1 ≤ l.length) :
    (insertionSortGo l 0 l.length).Chain' keyLe := by
  obtain ⟨x, xs, rfl⟩ : ∃ x xs, l = x :: xs := by
    cases l with
    | nil => simp at h
    | cons x xs => exact ⟨x, xs, rfl⟩
  have key := insOuter_chain (x :: xs).length xs [x] ((x :: xs).length - 0)
    (List.chain'_singleton x) (by simp) (by simp [Nat.add_comm])
  simpa [insertionSortGo] using key

theorem shellLoop_id (b : Nat) (l : List UnusedGetterError) (hl : l.Chain' keyLe)
    (hb : b ≤ l.length) : ∀ (fuel i : Nat), 1 ≤ i → shellLoop b fuel i l = l
  | 0, _, _ => rfl
  | fuel + 1, i, hi => by
      rw [shellLoop]
      by_cases hib : i < b
      · rw [if_pos hib]
        have hfalse : lLess l i (i - 6) = false := by
          unfold lLess
          exact sorted_lget hl (by omega) (by omega)
        rw [if_neg (by simp [hfalse])]
        exact shellLoop_id b l hl hb fuel (i + 1) (by omega)
      · rw [if_neg hib]

theorem insOuter_id (b : Nat) (l : List UnusedGetterError) (hl : l.Chain' keyLe)
    (hb : b ≤ l.length) : ∀ (fuel i : Nat), 1 ≤ i → insOuter 0 b fuel i l = l
  | 0, _, _ => rfl
  | fuel + 1, i, hi => by
      rw [insOuter]
      by_cases hib : i < b
      · rw [if_pos hib]
        have hin : insInner 0 i l = l := by
          obtain ⟨j, rfl⟩ : ∃ j, i = j + 1 := ⟨i - 1, by omega⟩
          rw [insInner]
          have hfalse : lLess l (j + 1) j = false := by
            unfold lLess
            exact sorted_lget hl (by omega) (by omega)
          rw [if_neg (by simp [hfalse])]
        rw [hin]
        exact insOuter_id b l hl hb fuel (i + 1) (by omega)
      · rw [if_neg hib]

theorem sortGo_small (l : List UnusedGetterError) (h : l.length ≤ 12) :
    sortGo l =
      if 1 < l.length then insertionSortGo (shellPass l 0 l.length) 0 l.length else l := by
  unfold sortGo
  cases maxDepthGo l.length with
  | zero =>
      rw [quickSortGo, if_neg (by omega)]
      simp only [Nat.sub_zero]
  | succ d =>
      rw [quickSortGo, if_neg (by omega)]
      simp only [Nat.sub_zero]

theorem sortGo_length_small (l : List UnusedGetterError) (h : l.length ≤ 12) :
    (sortGo l).length = l.length := by
  rw [sortGo_small l h]
  split
  · rw [insertionSortGo_length, shellPass_length]
  · rfl

theorem sortGo_chain_small (l : List UnusedGetterError) (h : l.length ≤ 12) :
    (sortGo l).Chain' keyLe := by
  rw [sortGo_small l h]
  split
  · next hgt =>
      have hsl : (shellPass l 0 l.length).length = l.length := shellPass_length l 0 l.length
      set L := shellPass l 0 l.length with hLdef
      rw [← hsl]
      exact insertionSortGo_chain L (by omega)
  · next hle =>
      match l, hle with
      | [], _ => simp
      | [x], _ => simp
      | x :: y :: xs, hle =>
          exact absurd (by simp only [List.length_cons]; omega) hle

theorem sortGo_id_small (l : List UnusedGetterError) (h : l.length ≤ 12)
    (hl : l.Chain' keyLe) : sortGo l = l := by
  rw [sortGo_small l h]
  split
  · have h1 : shellPass l 0 l.length = l :=
      shellLoop_id l.length l hl (Nat.le_refl _) (l.length - 0) 6 (by omega)
    rw [h1]
    exact insOuter_id l.length l hl (Nat.le_refl _) (l.length - 0) 1 (Nat.le_refl 1)
  · rfl

/-- Claim C3, counterexample: on the 13-record result `cexC3` the real
go1.16 `sort.Sort` leaves the equal-key pair in swapped order, and the
second `Unique` swaps it back, so `Unique(Unique(R))` differs from
`Unique(R)`. -/
theorem claim_C3_counterexample :
    Result.UniqueGo (Result.UniqueGo ⟨cexC3⟩) ≠ Result.UniqueGo ⟨cexC3⟩ := by decide

/-- Claim C3 (amended): when the result holds at most 12 violations,
`Unique(Unique(R)) = Unique(R)` for the program as executed. -/
theorem claim_C3_unique_go_idempotent_small (r : Result)
    (h : r.UnusedGetterError.length ≤ 12) :
    r.UniqueGo.UniqueGo = r.UniqueGo := by
  unfold Result.UniqueGo
  have hs : (sortGo r.UnusedGetterError).Chain' keyLe :=
    sortGo_chain_small r.UnusedGetterError h
  have hlen : (compact (sortGo r.UnusedGetterError)).length ≤ 12 :=
    Nat.le_trans (compact_length_le _)
      (Nat.le_trans (Nat.le_of_eq (sortGo_length_small _ h)) h)
  have hc : (compact (sortGo r.UnusedGetterError)).Chain' keyLe := chain'_compact hs
  have hid : sortGo (compact (sortGo r.UnusedGetterError)) =
      compact (sortGo r.UnusedGetterError) := sortGo_id_small _ hlen hc
  simp only [hid]
  rw [compact_of_chain'_ne (chain'_ne_compact _)]

theorem claim_C3_witness :
    wC3.UnusedGetterError.length ≤ 12 ∧ wC3.UniqueGo.UniqueGo = wC3.UniqueGo :=
  ⟨by decide, claim_C3_unique_go_idempotent_small wC3 (by decide)⟩

end Gettercheck
